import Mathlib

set_option maxHeartbeats 1000000

/- Verification development for the Actor Alphabetizer module
   (src/scripts/main.js). JavaScript strings are modelled as lists of
   characters; the host document store is modelled as an explicit world
   state holding the folder directory, the actor directory and a fresh-id
   counter for the folder creation service. -/

abbrev Str := List Char

/-- Digit expansion with an explicit recursion-depth bound; the wrapper
below always passes enough fuel, so the bound never truncates. -/
def decDigits : Nat → Nat → Str
  | 0, _ => []
  | fuel+1, n =>
    if n < 10 then [Char.ofNat (48 + n)]
    else decDigits fuel (n / 10) ++ [Char.ofNat (48 + n % 10)]

/-- Decimal rendering of a natural number, one character per digit. Models
the number-to-string conversion performed by JavaScript template literals. -/
def decRepr (n : Nat) : Str := decDigits (n + 1) n

/-- JavaScript Map.set: overwrite the entry in place or append a new one. -/
def mapSet {κ ν : Type} [BEq κ] (m : List (κ × ν)) (k : κ) (v : ν) : List (κ × ν) :=
  match m with
  | [] => [(k, v)]
  | e :: rest => if e.1 == k then (k, v) :: rest else e :: mapSet rest k v

/-- JavaScript Map.get: the value stored at the key, if any. -/
def mapGet {κ ν : Type} [BEq κ] (m : List (κ × ν)) (k : κ) : Option ν :=
  (m.find? (fun e => e.1 == k)).map (fun e => e.2)

/-- First-occurrence de-duplication; models Array.from(new Set(xs)). -/
def dedupKeep {α : Type} [BEq α] : List α → List α
  | [] => []
  | x :: xs => x :: (dedupKeep xs).filter (fun y => !(y == x))

/-- Stable insertion used by the sort below. -/
def insertSorted {α : Type} (le : α → α → Bool) (x : α) : List α → List α
  | [] => [x]
  | y :: ys => if le x y then x :: y :: ys else y :: insertSorted le x ys

/-- Insertion sort; models Array.prototype.sort with the given comparator. -/
def sortBy {α : Type} (le : α → α → Bool) : List α → List α
  | [] => []
  | x :: xs => insertSorted le x (sortBy le xs)

/-- Lexicographic string order by character code, modelling the default
string comparison used for single letters and type names. -/
def strLe : Str → Str → Bool
  | [], _ => true
  | _ :: _, [] => false
  | a :: as, b :: bs => if a = b then strLe as bs else decide (a < b)

/-- JavaScript Set union in insertion order: add the elements of t to s,
skipping the ones already present. -/
def setUnion (s : List Str) (t : List Str) : List Str :=
  t.foldl (fun acc x => if acc.contains x then acc else acc ++ [x]) s

/-- Models String.prototype.trim: remove leading and trailing whitespace. -/
def jsTrim (s : Str) : Str :=
  ((s.dropWhile Char.isWhitespace).reverse.dropWhile Char.isWhitespace).reverse

/-- The character class of the regex [A-Za-z] in normalizeLetter. -/
def isAsciiAlpha (c : Char) : Bool :=
  ('A' ≤ c && c ≤ 'Z') || ('a' ≤ c && c ≤ 'z')

/-- Models String.prototype.toUpperCase on one character over the ASCII
range, the only range the call site can receive from the regex match. -/
def jsToUpper (c : Char) : Char :=
  if 'a' ≤ c && c ≤ 'z' then Char.ofNat (c.toNat - 32) else c

/-- normalizeLetter (main.js 17-21): trim the name, take the first match of
the regex [A-Za-z] anywhere in the string, uppercase it; null if no match.
The name argument is optional because the caller may pass undefined. -/
def normalizeLetter (name : Option Str) : Option Char :=
  let s := jsTrim (name.getD [])
  (s.find? isAsciiAlpha).map jsToUpper

/-- shortId (main.js 23-25): String(id).slice(-4), the last four characters
of the id (the whole id when it is shorter). -/
def shortId (id : Str) : Str := id.drop (id.length - 4)

/-- Folder documents as the dialog code sees them: an id, a name, and the
resolved reference to the parent folder (none at the root). The inductive
parent reference mirrors the acyclic resolved document graph of the host. -/
inductive FolderObj : Type where
  | node (id : Str) (name : Str) (parent : Option FolderObj)

def FolderObj.id : FolderObj → Str
  | .node i _ _ => i

def FolderObj.name : FolderObj → Str
  | .node _ n _ => n

def FolderObj.parent : FolderObj → Option FolderObj
  | .node _ _ p => p

/-- Actor documents as the dialog code sees them: id, display name (possibly
undefined), stringified type tag and resolved containing folder. -/
structure ActorObj where
  id : Str
  name : Option Str
  atype : Str
  folder : Option FolderObj

/-- isDescendantFolder (main.js 66-73): walk the parent chain of the folder
and report whether some proper ancestor has the given id. -/
def isDescendantFolder : FolderObj → Str → Bool
  | .node _ _ none, _ => false
  | .node _ _ (some p), ancestorId =>
    if p.id == ancestorId then true else isDescendantFolder p ancestorId

/-- actorInScope (main.js 75-88). -/
def actorInScope (actor : ActorObj) (parentId : Option Str) (includeSubfolders : Bool) : Bool :=
  match parentId with
  | none => true
  | some pid =>
    if (actor.folder.map FolderObj.id) == some pid then true
    else if !includeSubfolders then false
    else
      match actor.folder with
      | none => false
      | some f => isDescendantFolder f pid

/-- The body of the grouping loop in buildFolderChildrenMap
(main.js 39-43): push the folder onto the bucket of its parent id. -/
def childStepFun (m : List (Option Str × List FolderObj)) (f : FolderObj) :
    List (Option Str × List FolderObj) :=
  match mapGet m (f.parent.map FolderObj.id) with
  | some l => mapSet m (f.parent.map FolderObj.id) (l ++ [f])
  | none => mapSet m (f.parent.map FolderObj.id) [f]

/-- buildFolderChildrenMap (main.js 37-45): group the folder list by parent
id (none for roots), keeping insertion order. -/
def buildFolderChildrenMap (actorFolders : List FolderObj) : List (Option Str × List FolderObj) :=
  actorFolders.foldl childStepFun []

/-- The memoized depth-first walk inside buildDescendantsMemo
(main.js 51-60): return the cached set, or fold the recursively computed
descendant sets of the children into a set seeded with the folder id, then
cache it. The fuel argument bounds the recursion depth; the source relies
on the host-guaranteed acyclicity of the folder tree for termination, and
the caller passes fuel exceeding every possible depth. -/
def dfsDesc (ch : Option Str → List FolderObj) :
    Nat → List (Str × List Str) → Str → List (Str × List Str) × List Str
  | 0, memo, _ => (memo, [])
  | fuel+1, memo, fid =>
    match mapGet memo fid with
    | some s => (memo, s)
    | none =>
      let r := (ch (some fid)).foldl
        (fun acc k =>
          let d := dfsDesc ch fuel acc.1 k.id
          (d.1, setUnion acc.2 d.2))
        (memo, [fid])
      (mapSet r.1 fid r.2, r.2)

/-- The children lookup closure used by the walk: children.get(pid) ?? []. -/
def childLookup (actorFolders : List FolderObj) : Option Str → List FolderObj :=
  fun pid => (mapGet (buildFolderChildrenMap actorFolders) pid).getD []

/-- buildDescendantsMemo (main.js 47-64): run the memoized walk from every
folder and return the resulting memo table. -/
def buildDescendantsMemo (actorFolders : List FolderObj) : List (Str × List Str) :=
  actorFolders.foldl
    (fun memo f => (dfsDesc (childLookup actorFolders) (actorFolders.length + 1) memo f.id).1)
    []

/-- countActorsForFolder (main.js 90-95). -/
def countActorsForFolder (folderId : Str) (actors : List ActorObj)
    (descendantsMemo : List (Str × List Str)) : Nat × Nat :=
  let direct := (actors.filter (fun a => (a.folder.map FolderObj.id) == some folderId)).length
  let descSet := (mapGet descendantsMemo folderId).getD [folderId]
  let withSubfolders := (actors.filter (fun a =>
    match a.folder with
    | some f => descSet.contains f.id
    | none => false)).length
  (direct, withSubfolders)

/-- The ancestor-name walk of folderBreadcrumb (main.js 27-35): the names
from the folder up to its root, in walk order. -/
def crumbParts : FolderObj → List Str
  | .node _ n none => [n]
  | .node _ n (some p) => n :: crumbParts p

/-- Array.prototype.join with a separator string. -/
def strJoin (sep : Str) : List Str → Str
  | [] => []
  | [x] => x
  | x :: xs => x ++ sep ++ strJoin sep xs

/-- folderBreadcrumb (main.js 27-35): ancestor names from the root down to
the folder, joined by a separator. -/
def folderBreadcrumb (f : FolderObj) : Str :=
  strJoin ((" / ").data) (crumbParts f).reverse

/-- One entry of the raw dropdown data built in openAlphabetizerDialog
(main.js 109-113). -/
structure RawEntry where
  id : Str
  crumb : Str
  direct : Nat
  withSubfolders : Nat
deriving DecidableEq

/-- One entry of the final dropdown choice list (main.js 118-128). -/
structure ChoiceEntry where
  id : Str
  name : Str
deriving DecidableEq

/-- The raw per-folder rows of the dropdown (main.js 107-113). -/
def rawEntries (actorFolders : List FolderObj) (allActors : List ActorObj) : List RawEntry :=
  let memo := buildDescendantsMemo actorFolders
  actorFolders.map (fun f =>
    let c := countActorsForFolder f.id allActors memo
    { id := f.id, crumb := folderBreadcrumb f, direct := c.1, withSubfolders := c.2 })

/-- The body of the label-counting loop (main.js 116). -/
def crumbStepFun (m : List (Str × Nat)) (r : RawEntry) : List (Str × Nat) :=
  mapSet m r.crumb ((mapGet m r.crumb).getD 0 + 1)

/-- countsByCrumb (main.js 115-116): occurrences of each breadcrumb label. -/
def crumbCounts (raw : List RawEntry) : List (Str × Nat) :=
  raw.foldl crumbStepFun []

/-- The display label of one dropdown row (main.js 121-125): breadcrumb,
then a short-id suffix when the breadcrumb is shared, then the
direct/withSubfolders counts. -/
def entryLabel (counts : List (Str × Nat)) (r : RawEntry) : Str :=
  let isDup := ((mapGet counts r.crumb).getD 0) > 1
  let suffix := if isDup then (" [").data ++ shortId r.id ++ ("]").data else []
  let countLabel := decRepr r.direct ++ ['/'] ++ decRepr r.withSubfolders
  r.crumb ++ suffix ++ (" (").data ++ countLabel ++ (")").data

/-- The folder-choice list computed by openAlphabetizerDialog
(main.js 103-128): the synthetic Root option followed by the per-folder
rows sorted by display label. -/
def alphabetizerFolderOptions (actorFolders : List FolderObj) (allActors : List ActorObj) :
    List ChoiceEntry :=
  let raw := rawEntries actorFolders allActors
  let counts := crumbCounts raw
  { id := ("root").data,
    name := ("Root (all Actors) (").data ++ decRepr allActors.length ++ (")").data } ::
  sortBy (fun a b => strLe a.name b.name) (raw.map (fun r => { id := r.id, name := entryLabel counts r }))

/-- Folder documents in the world model: id, name, document type tag and the
stored parent folder id. -/
structure FolderRec where
  id : Str
  name : Str
  ftype : Str
  parent : Option Str
deriving DecidableEq

/-- Actor documents in the world model: id, display name, stringified type
tag and the stored containing folder id. -/
structure ActorRec where
  id : Str
  name : Str
  atype : Str
  folder : Option Str
deriving DecidableEq

/-- The host document store visible to runAlphabetizer: the folder
directory, the actor directory and the fresh-id counter of the folder
creation service. -/
structure World where
  folders : List FolderRec
  actors : List ActorRec
  nextId : Nat
deriving DecidableEq

/-- The configuration collected by the dialog (main.js 171-183). -/
structure Config where
  createAllLetters : Bool
  groupByType : Bool
  parentFolderId : Option Str
  includeSubfolders : Bool

/-- The user-facing outcome of one run (main.js 198, 208, 271, 277). -/
inductive RunResult where
  | emptyScope
  | noUsableLetters
  | nothingToMove
  | moved (n : Nat)
deriving DecidableEq

/-- The document type tag of actor folders. -/
def actorTypeTag : Str := ("Actor").data

/-- Fresh ids handed out by the host folder creation service, modelled by a
counter rendered into an id string of a length the counter determines. -/
def genId (n : Nat) : Str := List.replicate (n + 1) '@'

/-- Resolve a folder id against the folder directory. -/
def lookupFolder (folders : List FolderRec) (fid : Str) : Option FolderRec :=
  folders.find? (fun f => f.id == fid)

/-- isDescendantFolder (main.js 66-73) against the world folder directory:
parent references are resolved by id before each step of the walk. The
fuel bounds the walk; the host-guaranteed acyclicity keeps every chain
shorter than the folder count, so the caller passes the folder count. -/
def isDescendantFolderW (folders : List FolderRec) : Nat → FolderRec → Str → Bool
  | 0, _, _ => false
  | fuel+1, cur, ancestorId =>
    match cur.parent with
    | none => false
    | some pid =>
      match lookupFolder folders pid with
      | none => false
      | some p => if p.id == ancestorId then true else isDescendantFolderW folders fuel p ancestorId

/-- actorInScope (main.js 75-88) against the world folder directory; the
containing folder reference of the actor is resolved by id first, as the
host does when the script reads actor.folder. -/
def actorInScopeW (folders : List FolderRec) (actor : ActorRec) (parentId : Option Str)
    (includeSubfolders : Bool) : Bool :=
  match parentId with
  | none => true
  | some pid =>
    let fobj := actor.folder.bind (lookupFolder folders)
    if (fobj.map FolderRec.id) == some pid then true
    else if !includeSubfolders then false
    else
      match fobj with
      | none => false
      | some f => isDescendantFolderW folders folders.length f pid

/-- Step 1 of runAlphabetizer (main.js 195): the in-scope actor list. -/
def scopeActors (w : World) (cfg : Config) : List ActorRec :=
  w.actors.filter (fun a => actorInScopeW w.folders a cfg.parentFolderId cfg.includeSubfolders)

/-- The 26 uppercase letters. -/
def azLetters : List Char := ("ABCDEFGHIJKLMNOPQRSTUVWXYZ").data

/-- Step 2 of runAlphabetizer (main.js 203-205): all 26 letters, or the
sorted distinct letters produced by the in-scope actors. -/
def lettersOf (cfg : Config) (inScopeList : List ActorRec) : List Char :=
  if cfg.createAllLetters then azLetters
  else sortBy (fun a b => decide (a ≤ b)) (dedupKeep (inScopeList.filterMap (fun a => normalizeLetter (some a.name))))

/-- String(t) for the partition tag: the stringified type, or the rendering
of null for the single wildcard partition. -/
def strOfOpt : Option Str → Str
  | some t => t
  | none => ("null").data

/-- Step 3 of runAlphabetizer (main.js 234-236): the type partitions, or the
single wildcard partition when grouping is off. -/
def typePartitions (cfg : Config) (inScopeList : List ActorRec) : List (Option Str) :=
  if cfg.groupByType then (sortBy strLe (dedupKeep (inScopeList.map ActorRec.atype))).map some
  else [none]

/-- The bucket key (main.js 251, 262). -/
def bucketKey (groupByType : Bool) (t : Str) (L : Char) : Str :=
  if groupByType then t ++ ("::").data ++ [L] else ("::").data ++ [L]

/-- findChildFolder (main.js 213-219): first actor folder with exactly this
name and exactly this stored parent. -/
def findChildFolder (folders : List FolderRec) (name : Str) (parentId : Option Str) :
    Option FolderRec :=
  folders.find? (fun f =>
    f.ftype == actorTypeTag && f.name == name &&
    (match parentId with
     | none => f.parent == none
     | some pid => f.parent == some pid))

/-- The folder record built by Folder.createDocuments for one request. -/
def madeFolder (name : Str) (parentId : Option Str) (n : Nat) : FolderRec :=
  { id := genId n, name := name, ftype := actorTypeTag, parent := parentId }

/-- ensureFolder (main.js 221-227): reuse the existing folder with this name
and parent, otherwise create one through the host service. -/
def ensureFolder (w : World) (name : Str) (parentId : Option Str) : World × Str :=
  match findChildFolder w.folders name parentId with
  | some f => (w, f.id)
  | none =>
    ({ w with
        folders := w.folders ++ [madeFolder name parentId w.nextId],
        nextId := w.nextId + 1 },
     genId w.nextId)

/-- The type-folder loop of runAlphabetizer (main.js 239-244). -/
def ensureTypesGo (parent : Option Str) :
    World → List (Option Str) → List (Str × Str) → World × List (Str × Str)
  | w, [], m => (w, m)
  | w, t :: ts, m =>
    let r := ensureFolder w (strOfOpt t) parent
    ensureTypesGo parent r.1 ts (mapSet m (strOfOpt t) r.2)

/-- Ensure one folder per type tag under the configured root, when grouping
is enabled (main.js 239-244). -/
def ensureTypeFolders (w : World) (cfg : Config) (types : List (Option Str)) :
    World × List (Str × Str) :=
  if cfg.groupByType then ensureTypesGo cfg.parentFolderId w types [] else (w, [])

/-- The inner letter loop of runAlphabetizer (main.js 249-253) for one
partition: ensure one folder per letter under the partition base. -/
def ensureLettersRow (base : Option Str) (tstr : Str) (group : Bool) :
    World → List Char → List (Str × Str) → World × List (Str × Str)
  | w, [], m => (w, m)
  | w, L :: ls, m =>
    let r := ensureFolder w [L] base
    ensureLettersRow base tstr group r.1 ls (mapSet m (bucketKey group tstr L) r.2)

/-- The outer letter loop of runAlphabetizer (main.js 247-254): for each
partition, resolve the partition base folder and ensure its letters. -/
def ensureLettersGo (cfg : Config) (tfi : List (Str × Str)) (letters : List Char) :
    World → List (Option Str) → List (Str × Str) → World × List (Str × Str)
  | w, [], m => (w, m)
  | w, t :: ts, m =>
    let base := if cfg.groupByType then mapGet tfi (strOfOpt t) else cfg.parentFolderId
    let r := ensureLettersRow base (strOfOpt t) cfg.groupByType w letters m
    ensureLettersGo cfg tfi letters r.1 ts r.2

/-- The folder-ensure phase of one run: steps 3 and 4 of runAlphabetizer
(main.js 229-254), returning the world after folder creation together with
the type-folder map and the letter-folder map. -/
def runEnsure (w : World) (cfg : Config) : World × List (Str × Str) × List (Str × Str) :=
  let inScopeList := scopeActors w cfg
  let letters := lettersOf cfg inScopeList
  let types := typePartitions cfg inScopeList
  let r1 := ensureTypeFolders w cfg types
  let r2 := ensureLettersGo cfg r1.2 letters r1.1 types []
  (r2.1, r1.2, r2.2)

/-- The decision the move loop takes for one actor (main.js 258-267): skip
when the letter is missing, the destination lookup is falsy, or the actor
already sits in the destination; otherwise the queued reassignment pair. -/
def actorUpdate (folders : List FolderRec) (group : Bool) (lfi : List (Str × Str))
    (a : ActorRec) : Option (Str × Str) :=
  match normalizeLetter (some a.name) with
  | none => none
  | some l =>
    match mapGet lfi (bucketKey group a.atype l) with
    | none => none
    | some dest =>
      if dest == ([] : Str) then none
      else if ((a.folder.bind (lookupFolder folders)).map FolderRec.id) == some dest then none
      else some (a.id, dest)

/-- The move loop of runAlphabetizer (main.js 257-268): queue a reassignment
for every in-scope actor the per-actor decision does not skip. -/
def buildUpdatesGo (folders : List FolderRec) (group : Bool) (lfi : List (Str × Str)) :
    List ActorRec → List (Str × Str) → List (Str × Str)
  | [], ups => ups
  | a :: rest, ups =>
    match actorUpdate folders group lfi a with
    | none => buildUpdatesGo folders group lfi rest ups
    | some u => buildUpdatesGo folders group lfi rest (ups ++ [u])

/-- Actor.updateDocuments (main.js 275): apply each queued folder
reassignment to the actor with the matching id. -/
def applyUpdates (actors : List ActorRec) (ups : List (Str × Str)) : List ActorRec :=
  actors.map (fun a =>
    match ups.find? (fun u => u.1 == a.id) with
    | some u => { a with folder := some u.2 }
    | none => a)

/-- runAlphabetizer (main.js 193-281). -/
def runAlphabetizer (w : World) (cfg : Config) : World × RunResult :=
  let inScopeList := scopeActors w cfg
  if inScopeList.isEmpty then (w, RunResult.emptyScope)
  else
    let letters := lettersOf cfg inScopeList
    if letters.isEmpty then (w, RunResult.noUsableLetters)
    else
      let r := runEnsure w cfg
      let updates := buildUpdatesGo r.1.folders cfg.groupByType r.2.2 inScopeList []
      if updates.isEmpty then (r.1, RunResult.nothingToMove)
      else ({ r.1 with actors := applyUpdates r.1.actors updates }, RunResult.moved updates.length)

/-- The reassignment count reported by a run outcome. -/
def movedCount : RunResult → Nat
  | RunResult.moved n => n
  | _ => 0

/-- Spec-side strict-descendant relation: the given id belongs to a proper
ancestor of the folder, reached by walking the parent chain. -/
inductive AncestorIdOf : FolderObj → Str → Prop where
  | here (i n : Str) (p : FolderObj) : AncestorIdOf (FolderObj.node i n (some p)) p.id
  | up (i n : Str) (p : FolderObj) (aid : Str) :
      AncestorIdOf p aid → AncestorIdOf (FolderObj.node i n (some p)) aid

/-- Acyclicity witness for the resolved folder graph used by the dialog: a
rank that strictly increases from a parent to each folder listing it. -/
def RankOKObj (fs : List FolderObj) (rank : Str → Nat) : Prop :=
  ∀ f ∈ fs, ∀ p ∈ fs, (f.parent.map FolderObj.id) = some p.id → rank p.id < rank f.id

/-- Acyclicity witness for the world folder directory. -/
def RankOKW (fs : List FolderRec) (rank : Str → Nat) : Prop :=
  ∀ f ∈ fs, ∀ p ∈ fs, f.parent = some p.id → rank p.id < rank f.id

/-- Host invariants assumed of a world: distinct document ids, non-empty
folder ids, stored ids never colliding with ids the creation service will
generate, actor folder references resolving inside the directory, and an
acyclic folder tree. -/
def WorldWF (w : World) (rank : Str → Nat) : Prop :=
  (w.actors.map ActorRec.id).Nodup ∧
  (w.folders.map FolderRec.id).Nodup ∧
  (∀ f ∈ w.folders, f.id ≠ []) ∧
  (∀ f ∈ w.folders, ∀ n, w.nextId ≤ n → f.id ≠ genId n) ∧
  (∀ f ∈ w.folders, ∀ pid, f.parent = some pid → ∀ n, w.nextId ≤ n → pid ≠ genId n) ∧
  (∀ a ∈ w.actors, ∀ fid, a.folder = some fid → ∃ g ∈ w.folders, g.id = fid) ∧
  RankOKW w.folders rank

/-- The configured root is either Root or an existing folder, as the dialog
dropdown guarantees. -/
def ValidParent (w : World) (cfg : Config) : Prop :=
  cfg.parentFolderId = none ∨ ∃ f ∈ w.folders, some f.id = cfg.parentFolderId

/-- No two actor folders share both name and stored parent. -/
def NoDupNameParent (fs : List FolderRec) : Prop :=
  List.Pairwise
    (fun f g => ¬(f.ftype = actorTypeTag ∧ g.ftype = actorTypeTag ∧ f.name = g.name ∧ f.parent = g.parent))
    fs

/-- Every memo table entry contains the id it is keyed by. -/
def MemoSelfMem (m : List (Str × List Str)) : Prop :=
  ∀ g s, mapGet m g = some s → g ∈ s

/-- Coherence of a memo table for a folder list: every entry lists its key,
has an entry for every child of its key, and holds exactly the union of its
key with the entries of the children of its key. -/
def MemoCoherent (fs : List FolderObj) (m : List (Str × List Str)) : Prop :=
  ∀ g s, mapGet m g = some s →
    (∀ k ∈ fs.filter (fun f => f.parent.map FolderObj.id == some g),
      ∃ sk, mapGet m k.id = some sk) ∧
    (∀ x, x ∈ s ↔ x = g ∨
      ∃ k ∈ fs.filter (fun f => f.parent.map FolderObj.id == some g),
      ∃ sk, mapGet m k.id = some sk ∧ x ∈ sk)

/-- One run only extends the folder directory: the actor list is untouched
by folder creation, the fresh-id counter is monotone, and every appended
folder is an actor folder carrying a generated id at least the old
counter. -/
def WorldExt (w w' : World) : Prop :=
  w'.actors = w.actors ∧ w.nextId ≤ w'.nextId ∧
  ∃ ext, w'.folders = w.folders ++ ext ∧
    ∀ g ∈ ext, g.ftype = actorTypeTag ∧ ∃ n, w.nextId ≤ n ∧ g.id = genId n

/-- The id discipline the host store maintains: folder ids are pairwise
distinct and never collide with ids the creation service will hand out. -/
def IdsOK (w : World) : Prop :=
  (w.folders.map FolderRec.id).Nodup ∧
  (∀ f ∈ w.folders, ∀ n, w.nextId ≤ n → f.id ≠ genId n)

/-- Concrete grandparent folder used by witnesses. -/
def exFolderA : FolderObj := FolderObj.node (("fa").data) (("Villains").data) none

/-- Concrete child folder used by witnesses. -/
def exFolderB : FolderObj := FolderObj.node (("fb").data) (("Bosses").data) (some exFolderA)

/-- Concrete actor document used by witnesses. -/
def exActorC2 : ActorObj :=
  { id := ("a1").data, name := some (("Zuko").data), atype := ("npc").data,
    folder := some exFolderB }

/-- Concrete rank function witnessing acyclicity of the two-folder chain. -/
def exRank : Str → Nat := fun i => if i = ("fa").data then 0 else 1

/-- Root folder with a five-character id ending in aaaa. -/
def exF1 : FolderObj := FolderObj.node (("xaaaa").data) (("N").data) none

/-- A second root folder with the same name and the same last four id
characters as exF1. -/
def exF2 : FolderObj := FolderObj.node (("yaaaa").data) (("N").data) none

/-- A third root folder with the same name as exF1 but a different
four-character id fragment. -/
def exF3 : FolderObj := FolderObj.node (("cbbb").data) (("N").data) none

/-- The raw dropdown row of one folder: the body of the map in
rawEntries (main.js 109-113), named for use in statements. -/
def rawOf (fs : List FolderObj) (actors : List ActorObj) (f : FolderObj) : RawEntry :=
  { id := FolderObj.id f, crumb := folderBreadcrumb f,
    direct := (countActorsForFolder (FolderObj.id f) actors (buildDescendantsMemo fs)).1,
    withSubfolders := (countActorsForFolder (FolderObj.id f) actors (buildDescendantsMemo fs)).2 }

/-- The dropdown choice built from one raw row (main.js 121-125). -/
def choiceOf (counts : List (Str × Nat)) (r : RawEntry) : ChoiceEntry :=
  { id := r.id, name := entryLabel counts r }

/- ===================== Theorems ===================== -/

theorem find?_dropWhile_eq {p q : Char → Bool} (h : ∀ c, q c = true → p c = false) :
    ∀ l : Str, (l.dropWhile q).find? p = l.find? p
  | [] => rfl
  | c :: l => by
    rw [List.dropWhile_cons]
    by_cases hq : q c = true
    · rw [if_pos hq, find?_dropWhile_eq h l, List.find?_cons, h c hq]
    · rw [if_neg hq]

theorem find?_append_right_none {p : Char → Bool} (l w : Str) (hw : w.find? p = none) :
    (l ++ w).find? p = l.find? p := by
  rw [List.find?_append, hw]
  cases l.find? p <;> rfl

theorem find?_jsTrim (p : Char → Bool) (h : ∀ c, Char.isWhitespace c = true → p c = false)
    (s : Str) : (jsTrim s).find? p = s.find? p := by
  unfold jsTrim
  have h1 : (s.dropWhile Char.isWhitespace).find? p = s.find? p := find?_dropWhile_eq h s
  set t := s.dropWhile Char.isWhitespace with ht
  have hsplit : t.reverse.takeWhile Char.isWhitespace ++ t.reverse.dropWhile Char.isWhitespace
      = t.reverse := List.takeWhile_append_dropWhile _ _
  have htr : t = (t.reverse.dropWhile Char.isWhitespace).reverse ++
      (t.reverse.takeWhile Char.isWhitespace).reverse := by
    have := congrArg List.reverse hsplit
    rw [List.reverse_append] at this
    rw [this, List.reverse_reverse]
  have hnone : ((t.reverse.takeWhile Char.isWhitespace).reverse).find? p = none := by
    rw [List.find?_eq_none]
    intro x hx
    rw [List.mem_reverse] at hx
    have := List.mem_takeWhile_imp hx
    simp [h x this]
  calc ((t.reverse.dropWhile Char.isWhitespace).reverse).find? p
      = (((t.reverse.dropWhile Char.isWhitespace).reverse) ++
          (t.reverse.takeWhile Char.isWhitespace).reverse).find? p :=
        (find?_append_right_none _ _ hnone).symm
    _ = t.find? p := by rw [← htr]
    _ = s.find? p := h1

theorem whitespace_not_alpha : ∀ c : Char, Char.isWhitespace c = true → isAsciiAlpha c = false := by
  intro c h
  simp only [Char.isWhitespace] at h
  simp only [Bool.or_eq_true, decide_eq_true_eq] at h
  rcases h with ((h | h) | h) | h <;> subst h <;> decide

theorem charLe_toNat {a b : Char} : a ≤ b ↔ a.toNat ≤ b.toNat :=
  Iff.trans Char.le_def UInt32.le_def

theorem charOfNat_toNat_valid {n : Nat} (h : n < 55296) : (Char.ofNat n).toNat = n := by
  have hv : Nat.isValidChar n := Or.inl h
  rw [Char.ofNat, dif_pos hv]
  rfl

theorem jsToUpper_range {c : Char} (h : isAsciiAlpha c = true) :
    'A' ≤ jsToUpper c ∧ jsToUpper c ≤ 'Z' := by
  unfold isAsciiAlpha at h
  simp only [Bool.or_eq_true, Bool.and_eq_true, decide_eq_true_eq] at h
  unfold jsToUpper
  have ha : ('a').toNat = 97 := rfl
  have hA : ('A').toNat = 65 := rfl
  have hZ : ('Z').toNat = 90 := rfl
  rcases h with ⟨h1, h2⟩ | ⟨h1, h2⟩
  · have hc1 := charLe_toNat.mp h1
    have hc2 := charLe_toNat.mp h2
    rw [hA] at hc1
    rw [hZ] at hc2
    have hcond : ('a' ≤ c && c ≤ 'z') = false := by
      have hn : ¬('a' ≤ c) := by
        intro hle
        have := charLe_toNat.mp hle
        rw [ha] at this
        omega
      simp [hn]
    rw [hcond]
    simp only [Bool.false_eq_true, if_false]
    exact ⟨h1, h2⟩
  · have hc1 := charLe_toNat.mp h1
    have hc2 := charLe_toNat.mp h2
    rw [ha] at hc1
    have hz : ('z').toNat = 122 := rfl
    rw [hz] at hc2
    have hcond : ('a' ≤ c && c ≤ 'z') = true := by simp [h1, h2]
    rw [hcond]
    simp only [if_true]
    have hval : (Char.ofNat (c.toNat - 32)).toNat = c.toNat - 32 :=
      charOfNat_toNat_valid (by omega)
    constructor
    · rw [charLe_toNat, hval, hA]
      omega
    · rw [charLe_toNat, hval, hZ]
      omega

/-- C3: for every input string (including empty or absent), normalizeLetter
returns the first ASCII alphabetic character found anywhere in the string,
scanning left to right, uppercased (always a character in the range A-Z),
and returns null when the string contains no ASCII letter; a non-ASCII
alphabetic character such as the accented E is never matched. The embedding
is a pure function, matching the purity stated by the claim. -/
theorem normalizeLetter_correct (name : Option Str) :
    normalizeLetter name = ((name.getD []).find? isAsciiAlpha).map jsToUpper ∧
    (∀ c, normalizeLetter name = some c → 'A' ≤ c ∧ c ≤ 'Z') ∧
    isAsciiAlpha 'É' = false := by
  have hmain : normalizeLetter name = ((name.getD []).find? isAsciiAlpha).map jsToUpper := by
    show ((jsTrim (name.getD [])).find? isAsciiAlpha).map jsToUpper
        = ((name.getD []).find? isAsciiAlpha).map jsToUpper
    rw [find?_jsTrim isAsciiAlpha whitespace_not_alpha]
  refine ⟨hmain, ?_, by decide⟩
  intro c hc
  rw [hmain] at hc
  rcases Option.map_eq_some'.mp hc with ⟨m, hm, hup⟩
  have := List.find?_some hm
  subst hup
  exact jsToUpper_range this

/-- C3 witness: a name starting with digits classifies to the uppercase of
its first ASCII letter, and the result lies in the range A-Z. -/
theorem normalizeLetter_correct_witness :
    normalizeLetter (some (("100 goblins").data)) = some 'G' ∧ ('A' ≤ 'G' ∧ 'G' ≤ 'Z') :=
  ⟨by decide, (normalizeLetter_correct (some (("100 goblins").data))).2.1 'G' (by decide)⟩

theorem isDescendantFolder_iff : ∀ (f : FolderObj) (aid : Str),
    isDescendantFolder f aid = true ↔ AncestorIdOf f aid
  | .node i n none, aid => by
    simp only [isDescendantFolder, Bool.false_eq_true, false_iff]
    intro h
    cases h
  | .node i n (some p), aid => by
    rw [isDescendantFolder]
    by_cases hid : p.id = aid
    · subst hid
      simp only [beq_self_eq_true, if_true, true_iff]
      exact AncestorIdOf.here i n p
    · have : (p.id == aid) = false := by simp [hid]
      rw [this]
      simp only [Bool.false_eq_true, if_false]
      rw [isDescendantFolder_iff p aid]
      constructor
      · exact fun h => AncestorIdOf.up i n p aid h
      · intro h
        cases h with
        | here => exact absurd rfl hid
        | up _ _ _ _ h => exact h

/-- C2: actorInScope is a total boolean function satisfying: a null root puts
every actor in scope; an actor with no containing folder is out of scope for
every non-null root; an actor whose containing folder id equals the root id
is in scope; otherwise the actor is in scope exactly when includeSubfolders
is set and its containing folder is a strict descendant of the folder with
the root id, determined by walking the parent chain. -/
theorem actorInScope_correct (a : ActorObj) (inc : Bool) :
    (actorInScope a none inc = true) ∧
    (∀ pid, a.folder = none → actorInScope a (some pid) inc = false) ∧
    (∀ pid f, a.folder = some f → f.id = pid → actorInScope a (some pid) inc = true) ∧
    (∀ pid f, a.folder = some f → f.id ≠ pid →
      (actorInScope a (some pid) inc = true ↔ (inc = true ∧ AncestorIdOf f pid))) := by
  have hsome_eq : ∀ pid,
      actorInScope a (some pid) inc =
        (if a.folder.map FolderObj.id == some pid then true
         else if !inc then false
         else match a.folder with
              | none => false
              | some f => isDescendantFolder f pid) := fun _ => rfl
  refine ⟨rfl, ?_, ?_, ?_⟩
  · intro pid hnone
    rw [hsome_eq, hnone]
    cases inc <;> simp
  · intro pid f hsome hid
    rw [hsome_eq, hsome]
    subst hid
    simp
  · intro pid f hsome hid
    rw [hsome_eq, hsome]
    have h1 : ((some f).map FolderObj.id == some pid) = false := by
      simp [hid]
    rw [h1]
    cases inc
    · simp
    · simp only [Bool.false_eq_true, if_false, Bool.not_true]
      rw [isDescendantFolder_iff f pid]
      simp

/-- C2 witness: with a concrete two-level folder chain, the strict-descendant
branch of actorInScope is exercised and agrees with the ancestor relation. -/
theorem actorInScope_correct_witness :
    exActorC2.folder = some exFolderB ∧ FolderObj.id exFolderB ≠ ("fa").data ∧
    (actorInScope exActorC2 (some (("fa").data)) true = true ↔
      (true = true ∧ AncestorIdOf exFolderB (("fa").data))) :=
  ⟨rfl, by decide, (actorInScope_correct exActorC2 true).2.2.2 (("fa").data) exFolderB rfl (by decide)⟩

theorem mapGet_set_self {κ ν : Type} [BEq κ] [LawfulBEq κ] :
    ∀ (m : List (κ × ν)) (k : κ) (v : ν), mapGet (mapSet m k v) k = some v
  | [], k, v => by simp [mapSet, mapGet, List.find?]
  | e :: rest, k, v => by
    rw [mapSet]
    by_cases h : e.1 == k
    · rw [if_pos h]
      simp [mapGet, List.find?]
    · rw [if_neg (by simp_all)]
      have ih := mapGet_set_self rest k v
      simp only [mapGet, List.find?] at ih ⊢
      rw [Bool.not_eq_true] at h
      rw [h]
      exact ih

theorem mapGet_set_ne {κ ν : Type} [BEq κ] [LawfulBEq κ] :
    ∀ (m : List (κ × ν)) (k k' : κ) (v : ν), k' ≠ k →
      mapGet (mapSet m k v) k' = mapGet m k'
  | [], k, k', v, h => by
    simp only [mapSet, mapGet, List.find?]
    have h1 : (k == k') = false := by simp [Ne.symm h]
    simp [h1]
  | e :: rest, k, k', v, h => by
    rw [mapSet]
    by_cases he : e.1 == k
    · rw [if_pos he]
      have h1 : (k == k') = false := by simp [Ne.symm h]
      have h2 : (e.1 == k') = false := by
        have : e.1 = k := by simpa using he
        simp [this, Ne.symm h]
      simp only [mapGet, List.find?, h1, h2]
    · rw [if_neg (by simp_all)]
      have ih := mapGet_set_ne rest k k' v h
      simp only [mapGet, List.find?] at ih ⊢
      by_cases h2 : e.1 == k'
      · rw [h2]
      · rw [Bool.not_eq_true] at h2
        rw [h2]
        exact ih

theorem contains_iff_mem_str (l : List Str) (x : Str) : l.contains x = true ↔ x ∈ l := by
  simp

theorem mem_setUnion : ∀ (t s : List Str) (x : Str), x ∈ setUnion s t ↔ x ∈ s ∨ x ∈ t
  | [], s, x => by simp [setUnion]
  | y :: t, s, x => by
    have hstep : setUnion s (y :: t) = setUnion (if s.contains y then s else s ++ [y]) t := rfl
    rw [hstep, mem_setUnion t _ x]
    by_cases hy : s.contains y = true
    · rw [if_pos hy]
      rw [contains_iff_mem_str] at hy
      constructor
      · rintro (h | h)
        · exact Or.inl h
        · exact Or.inr (List.mem_cons_of_mem y h)
      · rintro (h | h)
        · exact Or.inl h
        · rcases List.mem_cons.mp h with h | h
          · exact Or.inl (h ▸ hy)
          · exact Or.inr h
    · rw [if_neg hy]
      simp only [List.mem_append, List.mem_singleton, List.mem_cons]
      tauto

theorem mem_dedupKeep {α : Type} [BEq α] [LawfulBEq α] :
    ∀ (l : List α) (x : α), x ∈ dedupKeep l ↔ x ∈ l
  | [], x => by simp [dedupKeep]
  | y :: l, x => by
    rw [dedupKeep]
    by_cases hxy : x = y
    · subst hxy
      simp
    · simp only [List.mem_cons, List.mem_filter, hxy, false_or]
      constructor
      · rintro ⟨h, _⟩
        exact (mem_dedupKeep l x).mp h
      · intro h
        exact ⟨(mem_dedupKeep l x).mpr h, by simp [hxy]⟩

theorem nodup_dedupKeep {α : Type} [BEq α] [LawfulBEq α] :
    ∀ l : List α, (dedupKeep l).Nodup
  | [] => List.nodup_nil
  | y :: l => by
    rw [dedupKeep]
    refine List.Nodup.cons ?_ (List.Nodup.filter _ (nodup_dedupKeep l))
    intro hmem
    have := (List.mem_filter.mp hmem).2
    simp at this

theorem perm_insertSorted {α : Type} (le : α → α → Bool) (x : α) :
    ∀ l : List α, (insertSorted le x l).Perm (x :: l)
  | [] => List.Perm.refl _
  | y :: ys => by
    rw [insertSorted]
    by_cases h : le x y = true
    · rw [if_pos h]
    · rw [if_neg h]
      exact ((perm_insertSorted le x ys).cons y).trans (List.Perm.swap x y ys)

theorem perm_sortBy {α : Type} (le : α → α → Bool) :
    ∀ l : List α, (sortBy le l).Perm l
  | [] => List.Perm.refl _
  | x :: xs => by
    rw [sortBy]
    exact ((perm_insertSorted le x (sortBy le xs)).trans
      (List.Perm.cons x (perm_sortBy le xs)))

theorem mapGet_set {κ ν : Type} [BEq κ] [LawfulBEq κ] [DecidableEq κ]
    (m : List (κ × ν)) (k k' : κ) (v : ν) :
    mapGet (mapSet m k v) k' = if k' = k then some v else mapGet m k' := by
  by_cases h : k' = k
  · subst h
    rw [if_pos rfl, mapGet_set_self]
  · rw [if_neg h, mapGet_set_ne _ _ _ _ h]

theorem childrenMapAux :
    ∀ (fs : List FolderObj) (m : List (Option Str × List FolderObj)) (pid : Option Str),
      (mapGet (fs.foldl childStepFun m) pid).getD [] =
        (mapGet m pid).getD [] ++ fs.filter (fun f => f.parent.map FolderObj.id == pid)
  | [], m, pid => by simp
  | f :: fs, m, pid => by
    rw [List.foldl_cons, childrenMapAux fs _ pid, List.filter_cons]
    by_cases hp : f.parent.map FolderObj.id = pid
    · have hpred : (f.parent.map FolderObj.id == pid) = true := by simp [hp]
      rw [hpred]
      subst hp
      have hstep : mapGet (childStepFun m f) (f.parent.map FolderObj.id) =
          some ((mapGet m (f.parent.map FolderObj.id)).getD [] ++ [f]) := by
        unfold childStepFun
        cases hget : mapGet m (f.parent.map FolderObj.id) with
        | some l => rw [mapGet_set_self]; rfl
        | none => rw [mapGet_set_self]; rfl
      rw [hstep]
      simp
    · have hpred : (f.parent.map FolderObj.id == pid) = false := by simp [hp]
      rw [hpred]
      have hstep : mapGet (childStepFun m f) pid = mapGet m pid := by
        unfold childStepFun
        cases hget : mapGet m (f.parent.map FolderObj.id) with
        | some l => rw [mapGet_set_ne _ _ _ _ (fun he => hp he.symm)]
        | none => rw [mapGet_set_ne _ _ _ _ (fun he => hp he.symm)]
      rw [hstep]
      simp

theorem childLookup_eq_filter (fs : List FolderObj) (pid : Option Str) :
    childLookup fs pid = fs.filter (fun f => f.parent.map FolderObj.id == pid) := by
  unfold childLookup buildFolderChildrenMap
  rw [childrenMapAux]
  simp [mapGet]

theorem dfsFold_selfmem (ch : Option Str → List FolderObj) (fuel : Nat)
    (hP : ∀ memo fid, MemoSelfMem memo → MemoSelfMem (dfsDesc ch fuel memo fid).1) :
    ∀ (ks : List FolderObj) (st : List (Str × List Str) × List Str),
      MemoSelfMem st.1 →
      MemoSelfMem ((ks.foldl (fun acc k =>
        let d := dfsDesc ch fuel acc.1 k.id
        (d.1, setUnion acc.2 d.2)) st)).1 ∧
      (∀ x ∈ st.2, x ∈ ((ks.foldl (fun acc k =>
        let d := dfsDesc ch fuel acc.1 k.id
        (d.1, setUnion acc.2 d.2)) st)).2)
  | [], st, hm => ⟨hm, fun _ hx => hx⟩
  | k :: ks, st, hm => by
    rw [List.foldl_cons]
    have h1 : MemoSelfMem ((dfsDesc ch fuel st.1 k.id).1) := hP st.1 k.id hm
    have ih := dfsFold_selfmem ch fuel hP ks
      ((dfsDesc ch fuel st.1 k.id).1, setUnion st.2 (dfsDesc ch fuel st.1 k.id).2) h1
    exact ⟨ih.1, fun x hx => ih.2 x ((mem_setUnion _ _ x).mpr (Or.inl hx))⟩

theorem dfsDesc_selfmem (ch : Option Str → List FolderObj) :
    ∀ (fuel : Nat) (memo : List (Str × List Str)) (fid : Str),
      MemoSelfMem memo → MemoSelfMem (dfsDesc ch fuel memo fid).1
  | 0, _, _, hm => hm
  | fuel+1, memo, fid, hm => by
    rw [dfsDesc]
    cases hget : mapGet memo fid with
    | some s => exact hm
    | none =>
      have hfold := dfsFold_selfmem ch fuel
        (fun m g hm2 => dfsDesc_selfmem ch fuel m g hm2) (ch (some fid)) (memo, [fid]) hm
      intro g s hg
      rw [mapGet_set] at hg
      by_cases hgf : g = fid
      · rw [if_pos hgf] at hg
        subst hgf
        cases hg
        exact hfold.2 g (by simp)
      · rw [if_neg hgf] at hg
        exact hfold.1 g s hg

theorem buildDescendantsMemo_selfmem_aux (fs : List FolderObj) :
    ∀ (l : List FolderObj) (memo : List (Str × List Str)),
      MemoSelfMem memo →
      MemoSelfMem (l.foldl (fun memo f =>
        (dfsDesc (childLookup fs) (fs.length + 1) memo f.id).1) memo)
  | [], _, hm => hm
  | f :: l, memo, hm => by
    rw [List.foldl_cons]
    exact buildDescendantsMemo_selfmem_aux fs l _
      (dfsDesc_selfmem (childLookup fs) (fs.length + 1) memo f.id hm)

theorem buildDescendantsMemo_selfmem (fs : List FolderObj) :
    MemoSelfMem (buildDescendantsMemo fs) := by
  unfold buildDescendantsMemo
  exact buildDescendantsMemo_selfmem_aux fs fs [] (fun g s hg => by simp [mapGet] at hg)

/-- C10: for every folder list and actor list, the per-folder counts satisfy
direct at most withSubfolders: every actor counted directly is also counted
transitively, because the descendant set used for the transitive count
always contains the folder id itself. -/
theorem countActorsForFolder_direct_le (fs : List FolderObj) (actors : List ActorObj)
    (fid : Str) :
    (countActorsForFolder fid actors (buildDescendantsMemo fs)).1 ≤
      (countActorsForFolder fid actors (buildDescendantsMemo fs)).2 := by
  have hfid : fid ∈ (mapGet (buildDescendantsMemo fs) fid).getD [fid] := by
    cases hget : mapGet (buildDescendantsMemo fs) fid with
    | some s =>
      simpa using buildDescendantsMemo_selfmem fs fid s hget
    | none => simp
  show (actors.filter (fun a => (a.folder.map FolderObj.id) == some fid)).length ≤
    (actors.filter (fun a =>
      match a.folder with
      | some f => ((mapGet (buildDescendantsMemo fs) fid).getD [fid]).contains f.id
      | none => false)).length
  rw [← List.countP_eq_length_filter, ← List.countP_eq_length_filter]
  refine List.countP_mono_left ?_
  intro a _ hp
  cases hfold : a.folder with
  | none => rw [hfold] at hp; simp at hp
  | some f =>
    rw [hfold] at hp
    simp only [Option.map_some'] at hp
    have hfeq : f.id = fid := by simpa using hp
    simp only []
    rw [hfeq]
    exact (contains_iff_mem_str _ fid).mpr hfid

theorem filter_length_le_of_imp {α : Type} :
    ∀ (l : List α) (p q : α → Bool), (∀ a ∈ l, p a = true → q a = true) →
      (l.filter p).length ≤ (l.filter q).length := by
  intro l p q h
  rw [← List.countP_eq_length_filter, ← List.countP_eq_length_filter]
  exact List.countP_mono_left h

theorem filter_length_lt_of_imp {α : Type} :
    ∀ (l : List α) (p q : α → Bool), (∀ a ∈ l, p a = true → q a = true) →
      ∀ x ∈ l, q x = true → p x = false →
      (l.filter p).length < (l.filter q).length
  | a :: l, p, q, himp, x, hx, hqx, hpx => by
    have himp' : ∀ b ∈ l, p b = true → q b = true :=
      fun b hb => himp b (List.mem_cons_of_mem _ hb)
    rcases List.mem_cons.mp hx with hax | hxl
    · subst hax
      rw [List.filter_cons_of_neg (by simp [hpx]), List.filter_cons_of_pos hqx]
      have hle := filter_length_le_of_imp l p q himp'
      simp only [List.length_cons]
      omega
    · cases hpa : p a with
      | true =>
        rw [List.filter_cons_of_pos hpa,
            List.filter_cons_of_pos (himp a (List.mem_cons_self a l) hpa)]
        have := filter_length_lt_of_imp l p q himp' x hxl hqx hpx
        simp only [List.length_cons]
        omega
      | false =>
        rw [List.filter_cons_of_neg (by simp [hpa])]
        cases hqa : q a with
        | true =>
          rw [List.filter_cons_of_pos hqa]
          have := filter_length_lt_of_imp l p q himp' x hxl hqx hpx
          simp only [List.length_cons]
          omega
        | false =>
          rw [List.filter_cons_of_neg (by simp [hqa])]
          exact filter_length_lt_of_imp l p q himp' x hxl hqx hpx

theorem memoCoherent_set_fresh (fs : List FolderObj) (m : List (Str × List Str))
    (fid : Str) (s : List Str) (hm : MemoCoherent fs m) (hnone : mapGet m fid = none)
    (hkids : ∀ k ∈ fs.filter (fun g => g.parent.map FolderObj.id == some fid),
      k.id ≠ fid ∧ ∃ sk, mapGet m k.id = some sk)
    (hs : ∀ x, x ∈ s ↔ x = fid ∨
      ∃ k ∈ fs.filter (fun g => g.parent.map FolderObj.id == some fid),
      ∃ sk, mapGet m k.id = some sk ∧ x ∈ sk) :
    MemoCoherent fs (mapSet m fid s) := by
  intro g t hget
  rw [mapGet_set] at hget
  by_cases hgf : g = fid
  · subst hgf
    rw [if_pos rfl] at hget
    cases hget
    constructor
    · intro k hk
      rcases hkids k hk with ⟨hne, sk, hsk⟩
      exact ⟨sk, by rw [mapGet_set, if_neg hne]; exact hsk⟩
    · intro x
      rw [hs x]
      constructor
      · rintro (h | ⟨k, hk, sk, hsk, hx⟩)
        · exact Or.inl h
        · exact Or.inr ⟨k, hk, sk, by rw [mapGet_set, if_neg (hkids k hk).1]; exact hsk, hx⟩
      · rintro (h | ⟨k, hk, sk, hsk, hx⟩)
        · exact Or.inl h
        · rw [mapGet_set, if_neg (hkids k hk).1] at hsk
          exact Or.inr ⟨k, hk, sk, hsk, hx⟩
  · rw [if_neg hgf] at hget
    rcases hm g t hget with ⟨hch, hiff⟩
    have hchne : ∀ k ∈ fs.filter (fun f => f.parent.map FolderObj.id == some g), k.id ≠ fid := by
      intro k hk hkf
      rcases hch k hk with ⟨sk, hsk⟩
      rw [hkf, hnone] at hsk
      cases hsk
    constructor
    · intro k hk
      rcases hch k hk with ⟨sk, hsk⟩
      exact ⟨sk, by rw [mapGet_set, if_neg (hchne k hk)]; exact hsk⟩
    · intro x
      rw [hiff x]
      constructor
      · rintro (h | ⟨k, hk, sk, hsk, hx⟩)
        · exact Or.inl h
        · exact Or.inr ⟨k, hk, sk, by rw [mapGet_set, if_neg (hchne k hk)]; exact hsk, hx⟩
      · rintro (h | ⟨k, hk, sk, hsk, hx⟩)
        · exact Or.inl h
        · rw [mapGet_set, if_neg (hchne k hk)] at hsk
          exact Or.inr ⟨k, hk, sk, hsk, hx⟩

theorem dfsFold_coherent (fs : List FolderObj) (rank : Str → Nat) (fuel : Nat)
    (hP : ∀ (fid : Str), (∃ f ∈ fs, f.id = fid) →
      ∀ (memo : List (Str × List Str)), MemoCoherent fs memo →
        (fs.filter (fun g => decide (rank fid < rank g.id))).length < fuel →
        MemoCoherent fs (dfsDesc (childLookup fs) fuel memo fid).1 ∧
        mapGet (dfsDesc (childLookup fs) fuel memo fid).1 fid =
          some (dfsDesc (childLookup fs) fuel memo fid).2 ∧
        (∀ k s, mapGet memo k = some s →
          mapGet (dfsDesc (childLookup fs) fuel memo fid).1 k = some s) ∧
        (∀ k, mapGet memo k = none →
          mapGet (dfsDesc (childLookup fs) fuel memo fid).1 k ≠ none → rank fid ≤ rank k)) :
    ∀ (ks : List FolderObj),
      (∀ k ∈ ks, k ∈ fs ∧
        (fs.filter (fun g => decide (rank (FolderObj.id k) < rank g.id))).length < fuel) →
      ∀ (st : List (Str × List Str) × List Str), MemoCoherent fs st.1 →
      MemoCoherent fs (ks.foldl (fun acc k =>
        let d := dfsDesc (childLookup fs) fuel acc.1 (FolderObj.id k)
        (d.1, setUnion acc.2 d.2)) st).1 ∧
      (∀ k s, mapGet st.1 k = some s → mapGet (ks.foldl (fun acc k =>
        let d := dfsDesc (childLookup fs) fuel acc.1 (FolderObj.id k)
        (d.1, setUnion acc.2 d.2)) st).1 k = some s) ∧
      (∀ k, mapGet st.1 k = none → mapGet (ks.foldl (fun acc k =>
        let d := dfsDesc (childLookup fs) fuel acc.1 (FolderObj.id k)
        (d.1, setUnion acc.2 d.2)) st).1 k ≠ none →
        ∃ k0 ∈ ks, rank (FolderObj.id k0) ≤ rank k) ∧
      (∀ k ∈ ks, ∃ sk, mapGet (ks.foldl (fun acc k =>
        let d := dfsDesc (childLookup fs) fuel acc.1 (FolderObj.id k)
        (d.1, setUnion acc.2 d.2)) st).1 (FolderObj.id k) = some sk) ∧
      (∀ x, x ∈ (ks.foldl (fun acc k =>
        let d := dfsDesc (childLookup fs) fuel acc.1 (FolderObj.id k)
        (d.1, setUnion acc.2 d.2)) st).2 ↔ x ∈ st.2 ∨
        ∃ k ∈ ks, ∃ sk, mapGet (ks.foldl (fun acc k =>
          let d := dfsDesc (childLookup fs) fuel acc.1 (FolderObj.id k)
          (d.1, setUnion acc.2 d.2)) st).1 (FolderObj.id k) = some sk ∧ x ∈ sk)
  | [], _, st, hcoh => by
    refine ⟨hcoh, fun _ _ h => h, fun k hn hs => absurd hn hs, by simp, ?_⟩
    intro x
    simp
  | k :: ks, hks, st, hcoh => by
    rw [List.foldl_cons]
    have hk := hks k (List.mem_cons_self k ks)
    obtain ⟨hc1, hentry, hmono1, hrank1⟩ :=
      hP (FolderObj.id k) ⟨k, hk.1, rfl⟩ st.1 hcoh hk.2
    have hks' : ∀ k' ∈ ks, k' ∈ fs ∧
        (fs.filter (fun g => decide (rank (FolderObj.id k') < rank g.id))).length < fuel :=
      fun k' hk' => hks k' (List.mem_cons_of_mem _ hk')
    obtain ⟨ihc, ihmono, ihrank, ihent, ihmem⟩ :=
      dfsFold_coherent fs rank fuel hP ks hks'
        ((dfsDesc (childLookup fs) fuel st.1 (FolderObj.id k)).1,
          setUnion st.2 (dfsDesc (childLookup fs) fuel st.1 (FolderObj.id k)).2) hc1
    have hkeq : mapGet (ks.foldl (fun acc k =>
        let d := dfsDesc (childLookup fs) fuel acc.1 (FolderObj.id k)
        (d.1, setUnion acc.2 d.2))
        ((dfsDesc (childLookup fs) fuel st.1 (FolderObj.id k)).1,
          setUnion st.2 (dfsDesc (childLookup fs) fuel st.1 (FolderObj.id k)).2)).1
        (FolderObj.id k) =
        some (dfsDesc (childLookup fs) fuel st.1 (FolderObj.id k)).2 :=
      ihmono _ _ hentry
    refine ⟨ihc, ?_, ?_, ?_, ?_⟩
    · intro k' s hs
      exact ihmono k' s (hmono1 k' s hs)
    · intro k' hn hs
      cases hd : mapGet (dfsDesc (childLookup fs) fuel st.1 (FolderObj.id k)).1 k' with
      | some s =>
        exact ⟨k, List.mem_cons_self k ks, hrank1 k' hn (by rw [hd]; exact fun h => Option.noConfusion h)⟩
      | none =>
        obtain ⟨k0, hk0, hle⟩ := ihrank k' hd hs
        exact ⟨k0, List.mem_cons_of_mem _ hk0, hle⟩
    · intro k' hk'
      rcases List.mem_cons.mp hk' with h | h
      · subst h
        exact ⟨_, hkeq⟩
      · exact ihent k' h
    · intro x
      rw [ihmem x]
      constructor
      · rintro (hx | ⟨k', hk', sk, hsk, hxsk⟩)
        · rcases (mem_setUnion _ _ x).mp hx with hx2 | hx2
          · exact Or.inl hx2
          · exact Or.inr ⟨k, List.mem_cons_self k ks, _, hkeq, hx2⟩
        · exact Or.inr ⟨k', List.mem_cons_of_mem _ hk', sk, hsk, hxsk⟩
      · rintro (hx | ⟨k', hk', sk, hsk, hxsk⟩)
        · exact Or.inl ((mem_setUnion _ _ x).mpr (Or.inl hx))
        · rcases List.mem_cons.mp hk' with h | h
          · subst h
            rw [hkeq] at hsk
            cases hsk
            exact Or.inl ((mem_setUnion _ _ x).mpr (Or.inr hxsk))
          · exact Or.inr ⟨k', h, sk, hsk, hxsk⟩

theorem dfsDesc_coherent (fs : List FolderObj) (rank : Str → Nat)
    (hrank : RankOKObj fs rank) :
    ∀ (fuel : Nat) (fid : Str), (∃ f ∈ fs, f.id = fid) →
      ∀ (memo : List (Str × List Str)), MemoCoherent fs memo →
        (fs.filter (fun g => decide (rank fid < rank g.id))).length < fuel →
        MemoCoherent fs (dfsDesc (childLookup fs) fuel memo fid).1 ∧
        mapGet (dfsDesc (childLookup fs) fuel memo fid).1 fid =
          some (dfsDesc (childLookup fs) fuel memo fid).2 ∧
        (∀ k s, mapGet memo k = some s →
          mapGet (dfsDesc (childLookup fs) fuel memo fid).1 k = some s) ∧
        (∀ k, mapGet memo k = none →
          mapGet (dfsDesc (childLookup fs) fuel memo fid).1 k ≠ none → rank fid ≤ rank k)
  | 0, fid, _, memo, _, hfuel => absurd hfuel (by omega)
  | fuel+1, fid, hfid, memo, hcoh, hfuel => by
    rw [dfsDesc]
    cases hget : mapGet memo fid with
    | some s =>
      exact ⟨hcoh, hget, fun _ _ h => h, fun k hn hs => absurd hn hs⟩
    | none =>
      have hkids_mem : ∀ k ∈ childLookup fs (some fid),
          k ∈ fs ∧ (k.parent.map FolderObj.id) = some fid := by
        intro k hk
        rw [childLookup_eq_filter] at hk
        have h1 := List.mem_filter.mp hk
        exact ⟨h1.1, by simpa using h1.2⟩
      obtain ⟨f0, hf0, hf0id⟩ := hfid
      have hrankkid : ∀ k ∈ childLookup fs (some fid), rank fid < rank (FolderObj.id k) := by
        intro k hk
        rcases hkids_mem k hk with ⟨hkfs, hkp⟩
        have := hrank k hkfs f0 hf0 (by rw [hkp, hf0id])
        rw [hf0id] at this
        exact this
      have hbound : ∀ k ∈ childLookup fs (some fid),
          (fs.filter (fun g => decide (rank (FolderObj.id k) < rank g.id))).length < fuel := by
        intro k hk
        have hlt := filter_length_lt_of_imp fs
          (fun g => decide (rank (FolderObj.id k) < rank (FolderObj.id g)))
          (fun g => decide (rank fid < rank (FolderObj.id g)))
          (fun g _ hg => by
            simp only [decide_eq_true_eq] at hg ⊢
            exact lt_trans (hrankkid k hk) hg)
          k (hkids_mem k hk).1 (by simp [hrankkid k hk]) (by simp)
        omega
      obtain ⟨hc1, hm1, hr1, he1, hx1⟩ :=
        dfsFold_coherent fs rank fuel
          (fun fid' h1 memo' h2 h3 => dfsDesc_coherent fs rank hrank fuel fid' h1 memo' h2 h3)
          (childLookup fs (some fid))
          (fun k hk => ⟨(hkids_mem k hk).1, hbound k hk⟩)
          (memo, [fid]) hcoh
      have hRnone : mapGet ((childLookup fs (some fid)).foldl (fun acc k =>
          let d := dfsDesc (childLookup fs) fuel acc.1 (FolderObj.id k)
          (d.1, setUnion acc.2 d.2)) (memo, [fid])).1 fid = none := by
        cases hq : mapGet ((childLookup fs (some fid)).foldl (fun acc k =>
            let d := dfsDesc (childLookup fs) fuel acc.1 (FolderObj.id k)
            (d.1, setUnion acc.2 d.2)) (memo, [fid])).1 fid with
        | none => rfl
        | some s =>
          obtain ⟨k0, hk0, hle⟩ := hr1 fid hget (by rw [hq]; exact fun h => Option.noConfusion h)
          exact absurd (hrankkid k0 hk0) (by omega)
      have hkne : ∀ k ∈ childLookup fs (some fid), FolderObj.id k ≠ fid := by
        intro k hk he
        have := hrankkid k hk
        rw [he] at this
        omega
      refine ⟨?_, ?_, ?_, ?_⟩
      · refine memoCoherent_set_fresh fs _ fid _ hc1 hRnone ?_ ?_
        · intro k hk
          rw [← childLookup_eq_filter] at hk
          exact ⟨hkne k hk, he1 k hk⟩
        · intro x
          rw [hx1 x]
          simp only [List.mem_singleton]
          constructor
          · rintro (h | ⟨k, hk, sk, hsk, hx⟩)
            · exact Or.inl h
            · exact Or.inr ⟨k, by rw [← childLookup_eq_filter]; exact hk, sk, hsk, hx⟩
          · rintro (h | ⟨k, hk, sk, hsk, hx⟩)
            · exact Or.inl h
            · exact Or.inr ⟨k, by rw [← childLookup_eq_filter] at hk; exact hk, sk, hsk, hx⟩
      · exact mapGet_set_self _ _ _
      · intro k s hs
        have hne : k ≠ fid := fun he => by rw [he, hget] at hs; cases hs
        rw [mapGet_set, if_neg hne]
        exact hm1 k s hs
      · intro k hn hs
        by_cases hkf : k = fid
        · rw [hkf]
        · rw [mapGet_set, if_neg hkf] at hs
          cases hd : mapGet ((childLookup fs (some fid)).foldl (fun acc k =>
              let d := dfsDesc (childLookup fs) fuel acc.1 (FolderObj.id k)
              (d.1, setUnion acc.2 d.2)) (memo, [fid])).1 k with
          | none => rw [hd] at hs; exact absurd rfl hs
          | some s =>
            obtain ⟨k0, hk0, hle⟩ := hr1 k hn (by rw [hd]; exact fun h => Option.noConfusion h)
            have := hrankkid k0 hk0
            omega

theorem buildMemo_coherent_aux (fs : List FolderObj) (rank : Str → Nat)
    (hrank : RankOKObj fs rank) :
    ∀ (l : List FolderObj), (∀ f ∈ l, f ∈ fs) →
      ∀ (memo : List (Str × List Str)), MemoCoherent fs memo →
      MemoCoherent fs (l.foldl (fun memo f =>
        (dfsDesc (childLookup fs) (fs.length + 1) memo f.id).1) memo) ∧
      (∀ k s, mapGet memo k = some s →
        mapGet (l.foldl (fun memo f =>
          (dfsDesc (childLookup fs) (fs.length + 1) memo f.id).1) memo) k = some s) ∧
      (∀ f ∈ l, ∃ s, mapGet (l.foldl (fun memo f =>
        (dfsDesc (childLookup fs) (fs.length + 1) memo f.id).1) memo) (FolderObj.id f) = some s)
  | [], _, memo, hcoh => ⟨hcoh, fun _ _ h => h, by simp⟩
  | f :: l, hl, memo, hcoh => by
    rw [List.foldl_cons]
    have hffs := hl f (List.mem_cons_self f l)
    have hbound : (fs.filter (fun g =>
        decide (rank (FolderObj.id f) < rank (FolderObj.id g)))).length < fs.length + 1 := by
      have := List.length_filter_le
        (fun g => decide (rank (FolderObj.id f) < rank (FolderObj.id g))) fs
      omega
    obtain ⟨hc1, hentry, hmono1, _⟩ :=
      dfsDesc_coherent fs rank hrank (fs.length + 1) (FolderObj.id f)
        ⟨f, hffs, rfl⟩ memo hcoh hbound
    obtain ⟨ihc, ihm, ihe⟩ := buildMemo_coherent_aux fs rank hrank l
      (fun g hg => hl g (List.mem_cons_of_mem _ hg)) _ hc1
    refine ⟨ihc, fun k s hs => ihm k s (hmono1 k s hs), ?_⟩
    intro g hg
    rcases List.mem_cons.mp hg with h | h
    · subst h
      exact ⟨_, ihm _ _ hentry⟩
    · exact ihe g h

/-- C5: for every folder forest whose parent links admit a strictly
increasing rank toward the leaves (the rendering of the acyclicity the
host guarantees), the descendant index built by buildDescendantsMemo maps
every listed folder to a set; the set of a folder with no children is
exactly the singleton of its own id, and the set of any folder equals the
union of its own id with the descendant sets of its direct children. -/
theorem buildDescendantsMemo_correct (fs : List FolderObj) (rank : Str → Nat)
    (hrank : RankOKObj fs rank) (f : FolderObj) (hf : f ∈ fs) :
    ∃ s, mapGet (buildDescendantsMemo fs) (FolderObj.id f) = some s ∧
      (fs.filter (fun g => g.parent.map FolderObj.id == some (FolderObj.id f)) = [] →
        ∀ x, x ∈ s ↔ x = FolderObj.id f) ∧
      (∀ x, x ∈ s ↔ x = FolderObj.id f ∨
        ∃ k ∈ fs.filter (fun g => g.parent.map FolderObj.id == some (FolderObj.id f)),
        ∃ sk, mapGet (buildDescendantsMemo fs) (FolderObj.id k) = some sk ∧ x ∈ sk) := by
  unfold buildDescendantsMemo
  have hempty : MemoCoherent fs ([] : List (Str × List Str)) := by
    intro g s hg
    simp [mapGet] at hg
  obtain ⟨hc, _, he⟩ := buildMemo_coherent_aux fs rank hrank fs (fun _ h => h) [] hempty
  obtain ⟨s, hs⟩ := he f hf
  rcases hc (FolderObj.id f) s hs with ⟨_, hiff⟩
  refine ⟨s, hs, ?_, hiff⟩
  intro hleaf x
  rw [hiff x, hleaf]
  simp

/-- C5 witness: in the concrete two-folder chain, the parent folder is
mapped to a set satisfying the stated fixpoint equation. -/
theorem buildDescendantsMemo_correct_witness :
    RankOKObj [exFolderA, exFolderB] exRank ∧
    ∃ s, mapGet (buildDescendantsMemo [exFolderA, exFolderB]) (FolderObj.id exFolderA) = some s ∧
      ([exFolderA, exFolderB].filter
          (fun g => g.parent.map FolderObj.id == some (FolderObj.id exFolderA)) = [] →
        ∀ x, x ∈ s ↔ x = FolderObj.id exFolderA) ∧
      (∀ x, x ∈ s ↔ x = FolderObj.id exFolderA ∨
        ∃ k ∈ [exFolderA, exFolderB].filter
          (fun g => g.parent.map FolderObj.id == some (FolderObj.id exFolderA)),
        ∃ sk, mapGet (buildDescendantsMemo [exFolderA, exFolderB]) (FolderObj.id k) = some sk ∧
          x ∈ sk) :=
  ⟨by unfold RankOKObj; decide, buildDescendantsMemo_correct [exFolderA, exFolderB] exRank
    (by unfold RankOKObj; decide) exFolderA (by simp)⟩

theorem decDigits_digit : ∀ (fuel n : Nat) (c : Char), c ∈ decDigits fuel n →
    48 ≤ c.toNat ∧ c.toNat ≤ 57
  | 0, n, c, h => absurd h (by simp [decDigits])
  | fuel+1, n, c, h => by
    rw [decDigits] at h
    by_cases hn : n < 10
    · rw [if_pos hn] at h
      have hc := List.mem_singleton.mp h
      subst hc
      rw [charOfNat_toNat_valid (by omega)]
      omega
    · rw [if_neg hn] at h
      rcases List.mem_append.mp h with h | h
      · exact decDigits_digit fuel (n / 10) c h
      · have hc := List.mem_singleton.mp h
        subst hc
        have hm : n % 10 < 10 := Nat.mod_lt _ (by norm_num)
        rw [charOfNat_toNat_valid (by omega)]
        omega

theorem decRepr_no_bracket (n : Nat) : (']' : Char) ∉ decRepr n := by
  intro h
  have := decDigits_digit (n + 1) n ']' h
  have hv : (']' : Char).toNat = 93 := rfl
  omega

theorem append_eq_lt_absurd (sid1 sid2 r1 r2 : Str)
    (hr1c : r1.count ']' = 1) (hr2c : r2.count ']' = 1)
    (hr1h : r1.head? = some ']')
    (hlen : sid1.length < sid2.length)
    (heq : sid1 ++ r1 = sid2 ++ r2) : False := by
  have h1 := congrArg (List.take sid1.length) heq
  rw [List.take_append_of_le_length (Nat.le_refl _), List.take_length,
      List.take_append_of_le_length (Nat.le_of_lt hlen)] at h1
  have hsplit := List.take_append_drop sid1.length sid2
  have hsid2 : sid2 = sid1 ++ sid2.drop sid1.length := by
    conv_lhs => rw [← hsplit]
    rw [← h1]
  have htlen : 0 < (sid2.drop sid1.length).length := by
    rw [List.length_drop]
    omega
  have h2 : r1 = sid2.drop sid1.length ++ r2 := by
    apply List.append_cancel_left
    calc sid1 ++ r1 = sid2 ++ r2 := heq
      _ = (sid1 ++ sid2.drop sid1.length) ++ r2 := by rw [← hsid2]
      _ = sid1 ++ (sid2.drop sid1.length ++ r2) := by rw [List.append_assoc]
  have hcnt : r1.count ']' = (sid2.drop sid1.length).count ']' + r2.count ']' := by
    rw [h2, List.count_append]
  rw [hr1c, hr2c] at hcnt
  have htc : (sid2.drop sid1.length).count ']' = 0 := by omega
  cases hdrop : sid2.drop sid1.length with
  | nil => rw [hdrop] at htlen; simp at htlen
  | cons c t' =>
    rw [hdrop] at h2 htc
    rw [h2] at hr1h
    simp only [List.cons_append, List.head?_cons, Option.some.injEq] at hr1h
    subst hr1h
    simp [List.count_cons] at htc

theorem label_suffix_eq (sid1 sid2 cnt1 cnt2 : Str)
    (hc1 : (']' : Char) ∉ cnt1) (hc2 : (']' : Char) ∉ cnt2)
    (heq : sid1 ++ (("]").data ++ ((" (").data ++ (cnt1 ++ (")").data))) =
           sid2 ++ (("]").data ++ ((" (").data ++ (cnt2 ++ (")").data)))) :
    sid1 = sid2 := by
  have hcount : ∀ cnt : Str, (']' : Char) ∉ cnt →
      ((("]").data ++ ((" (").data ++ (cnt ++ (")").data))).count ']') = 1 := by
    intro cnt hc
    rw [List.count_append, List.count_append, List.count_append,
      List.count_eq_zero.mpr hc]
    decide
  have hhead : ∀ cnt : Str,
      ((("]").data ++ ((" (").data ++ (cnt ++ (")").data))).head?) = some ']' := by
    intro cnt
    rfl
  rcases Nat.lt_trichotomy sid1.length sid2.length with hlt | hle | hgt
  · exact absurd heq (fun h =>
      append_eq_lt_absurd sid1 sid2 _ _ (hcount cnt1 hc1) (hcount cnt2 hc2)
        (hhead cnt1) hlt h)
  · exact (List.append_inj heq hle).1
  · exact absurd heq.symm (fun h =>
      append_eq_lt_absurd sid2 sid1 _ _ (hcount cnt2 hc2) (hcount cnt1 hc1)
        (hhead cnt2) hgt h)

theorem crumbCountsAux : ∀ (raw : List RawEntry) (m : List (Str × Nat)) (c : Str),
    (mapGet (raw.foldl crumbStepFun m) c).getD 0 =
      (mapGet m c).getD 0 + (raw.filter (fun r => r.crumb == c)).length
  | [], m, c => by simp
  | r :: raw, m, c => by
    rw [List.foldl_cons, crumbCountsAux raw _ c]
    by_cases hc : r.crumb = c
    · subst hc
      rw [List.filter_cons_of_pos (by simp)]
      have hstep : mapGet (crumbStepFun m r) r.crumb =
          some ((mapGet m r.crumb).getD 0 + 1) := by
        unfold crumbStepFun
        exact mapGet_set_self _ _ _
      rw [hstep]
      simp only [Option.getD_some, List.length_cons]
      omega
    · rw [List.filter_cons_of_neg (by simp [hc])]
      have hstep : mapGet (crumbStepFun m r) c = mapGet m c := by
        unfold crumbStepFun
        rw [mapGet_set_ne _ _ _ _ (fun he => hc he.symm)]
      rw [hstep]

theorem two_le_filter_length_map {α β : Type} (g : α → β) (p : β → Bool) :
    ∀ (l : List α) (a b : α), a ≠ b → a ∈ l → b ∈ l →
      p (g a) = true → p (g b) = true → 2 ≤ ((l.map g).filter p).length
  | [], a, _, _, ha, _, _, _ => absurd ha (by simp)
  | x :: l, a, b, hab, ha, hb, hpa, hpb => by
    rw [List.map_cons]
    by_cases hxa : x = a
    · subst hxa
      rw [List.filter_cons_of_pos hpa]
      have hbl : b ∈ l := by
        rcases List.mem_cons.mp hb with h | h
        · exact absurd h.symm hab
        · exact h
      have h1 : g b ∈ (l.map g).filter p :=
        List.mem_filter.mpr ⟨List.mem_map_of_mem g hbl, hpb⟩
      have h2 : 0 < ((l.map g).filter p).length :=
        List.length_pos.mpr (List.ne_nil_of_mem h1)
      simp only [List.length_cons]
      omega
    · by_cases hxb : x = b
      · subst hxb
        rw [List.filter_cons_of_pos hpb]
        have hal : a ∈ l := by
          rcases List.mem_cons.mp ha with h | h
          · exact absurd h.symm (fun he => hab he.symm)
          · exact h
        have h1 : g a ∈ (l.map g).filter p :=
          List.mem_filter.mpr ⟨List.mem_map_of_mem g hal, hpa⟩
        have h2 : 0 < ((l.map g).filter p).length :=
          List.length_pos.mpr (List.ne_nil_of_mem h1)
        simp only [List.length_cons]
        omega
      · have hal : a ∈ l := by
          rcases List.mem_cons.mp ha with h | h
          · exact absurd h (fun he => hxa he.symm)
          · exact h
        have hbl : b ∈ l := by
          rcases List.mem_cons.mp hb with h | h
          · exact absurd h (fun he => hxb he.symm)
          · exact h
        have ih := two_le_filter_length_map g p l a b hab hal hbl hpa hpb
        cases hpx : p (g x) with
        | false =>
          rw [List.filter_cons_of_neg (by simp [hpx])]
          exact ih
        | true =>
          rw [List.filter_cons_of_pos hpx]
          simp only [List.length_cons]
          omega

theorem rawEntries_eq (fs : List FolderObj) (actors : List ActorObj) :
    rawEntries fs actors = fs.map (fun f =>
      { id := FolderObj.id f, crumb := folderBreadcrumb f,
        direct := (countActorsForFolder (FolderObj.id f) actors (buildDescendantsMemo fs)).1,
        withSubfolders :=
          (countActorsForFolder (FolderObj.id f) actors (buildDescendantsMemo fs)).2 }) := rfl

theorem entryLabel_eq (counts : List (Str × Nat)) (r : RawEntry) :
    entryLabel counts r =
      r.crumb ++ (if ((mapGet counts r.crumb).getD 0) > 1
        then (" [").data ++ shortId r.id ++ ("]").data else []) ++
      (" (").data ++ (decRepr r.direct ++ ['/'] ++ decRepr r.withSubfolders) ++ (")").data := rfl

theorem countLabel_no_bracket (d w : Nat) :
    (']' : Char) ∉ decRepr d ++ ['/'] ++ decRepr w := by
  intro h
  rcases List.mem_append.mp h with h | h
  · rcases List.mem_append.mp h with h | h
    · exact decRepr_no_bracket d h
    · simp at h
  · exact decRepr_no_bracket w h

theorem entryLabel_inj (crumb sid1 sid2 cnt1 cnt2 : Str)
    (hc1 : (']' : Char) ∉ cnt1) (hc2 : (']' : Char) ∉ cnt2)
    (heq : crumb ++ ((" [").data ++ sid1 ++ ("]").data) ++ (" (").data ++ cnt1 ++ (")").data =
           crumb ++ ((" [").data ++ sid2 ++ ("]").data) ++ (" (").data ++ cnt2 ++ (")").data) :
    sid1 = sid2 := by
  apply label_suffix_eq sid1 sid2 cnt1 cnt2 hc1 hc2
  simp only [List.append_assoc] at heq
  exact List.append_cancel_left (List.append_cancel_left heq)

theorem rawEntries_map (fs : List FolderObj) (actors : List ActorObj) :
    rawEntries fs actors = fs.map (rawOf fs actors) := rfl

theorem rawOf_crumb (fs : List FolderObj) (actors : List ActorObj) (f : FolderObj) :
    (rawOf fs actors f).crumb = folderBreadcrumb f := rfl

theorem rawOf_ident (fs : List FolderObj) (actors : List ActorObj) (f : FolderObj) :
    (rawOf fs actors f).id = FolderObj.id f := rfl

theorem options_eq (fs : List FolderObj) (actors : List ActorObj) :
    alphabetizerFolderOptions fs actors =
      { id := ("root").data,
        name := ("Root (all Actors) (").data ++ decRepr actors.length ++ (")").data } ::
      sortBy (fun a b => strLe a.name b.name)
        ((rawEntries fs actors).map (choiceOf (crumbCounts (rawEntries fs actors)))) := rfl

/-- C8 counterexample: two distinct root folders sharing both their
breadcrumb label and the last four characters of their ids (and their
counts) receive identical display labels in the catalog output, so the
display labels of two distinct folders with identical breadcrumbs are not
always distinct from each other. -/
theorem catalog_dedup_counterexample :
    exF1 ≠ exF2 ∧ folderBreadcrumb exF1 = folderBreadcrumb exF2 ∧
    (alphabetizerFolderOptions [exF1, exF2] []).map ChoiceEntry.name =
      [("Root (all Actors) (0)").data, ("N [aaaa] (0/0)").data, ("N [aaaa] (0/0)").data] :=
  ⟨fun h => absurd (congrArg FolderObj.id h) (by decide), by decide, by decide⟩

/-- C8 amended: for every pair of distinct folders with identical breadcrumb
labels, both display labels in the catalog output carry a disambiguating
suffix containing the last four characters of the folder's own id; the two
display labels are distinct from each other whenever the two last-four id
fragments differ, and when the fragments coincide and the direct and
with-subfolders counts also coincide the two display labels are identical,
as the counterexample instantiates. -/
theorem catalog_dedup_amended (fs : List FolderObj) (actors : List ActorObj)
    (f1 f2 : FolderObj) (h1 : f1 ∈ fs) (h2 : f2 ∈ fs) (hne : f1 ≠ f2)
    (hcr : folderBreadcrumb f1 = folderBreadcrumb f2) :
    ∃ o1 ∈ alphabetizerFolderOptions fs actors,
    ∃ o2 ∈ alphabetizerFolderOptions fs actors,
      o1.id = FolderObj.id f1 ∧ o2.id = FolderObj.id f2 ∧
      (∃ u v, o1.name = u ++ (shortId (FolderObj.id f1) ++ v)) ∧
      (∃ u v, o2.name = u ++ (shortId (FolderObj.id f2) ++ v)) ∧
      (shortId (FolderObj.id f1) ≠ shortId (FolderObj.id f2) → o1.name ≠ o2.name) ∧
      (shortId (FolderObj.id f1) = shortId (FolderObj.id f2) →
        (rawOf fs actors f1).direct = (rawOf fs actors f2).direct →
        (rawOf fs actors f1).withSubfolders = (rawOf fs actors f2).withSubfolders →
        o1.name = o2.name) := by
  have hfilter2 : 2 ≤ ((fs.map (rawOf fs actors)).filter
      (fun r => r.crumb == folderBreadcrumb f1)).length := by
    refine two_le_filter_length_map (rawOf fs actors) _ fs f1 f2 hne h1 h2 ?_ ?_
    · exact beq_self_eq_true _
    · show (folderBreadcrumb f2 == folderBreadcrumb f1) = true
      rw [hcr]
      exact beq_self_eq_true _
  have hcount1 : 1 < (mapGet (crumbCounts (rawEntries fs actors))
      (folderBreadcrumb f1)).getD 0 := by
    have hca : (mapGet (crumbCounts (rawEntries fs actors)) (folderBreadcrumb f1)).getD 0 =
        (mapGet ([] : List (Str × Nat)) (folderBreadcrumb f1)).getD 0 +
          ((rawEntries fs actors).filter (fun r => r.crumb == folderBreadcrumb f1)).length :=
      crumbCountsAux _ _ _
    have hf2 : 2 ≤ ((rawEntries fs actors).filter
        (fun r => r.crumb == folderBreadcrumb f1)).length := by
      rw [rawEntries_map]
      exact hfilter2
    rw [hca]
    simp only [mapGet, List.find?_nil, Option.map_none', Option.getD_none]
    omega
  have hcount2 : 1 < (mapGet (crumbCounts (rawEntries fs actors))
      (folderBreadcrumb f2)).getD 0 := by
    rw [← hcr]
    exact hcount1
  have hname1 : entryLabel (crumbCounts (rawEntries fs actors)) (rawOf fs actors f1) =
      folderBreadcrumb f1 ++ ((" [").data ++ shortId (FolderObj.id f1) ++ ("]").data) ++
        (" (").data ++ (decRepr (rawOf fs actors f1).direct ++ ['/'] ++
          decRepr (rawOf fs actors f1).withSubfolders) ++ (")").data := by
    rw [entryLabel_eq, rawOf_crumb, rawOf_ident]
    rw [if_pos hcount1]
  have hname2 : entryLabel (crumbCounts (rawEntries fs actors)) (rawOf fs actors f2) =
      folderBreadcrumb f2 ++ ((" [").data ++ shortId (FolderObj.id f2) ++ ("]").data) ++
        (" (").data ++ (decRepr (rawOf fs actors f2).direct ++ ['/'] ++
          decRepr (rawOf fs actors f2).withSubfolders) ++ (")").data := by
    rw [entryLabel_eq, rawOf_crumb, rawOf_ident]
    rw [if_pos hcount2]
  refine ⟨choiceOf (crumbCounts (rawEntries fs actors)) (rawOf fs actors f1), ?_,
    choiceOf (crumbCounts (rawEntries fs actors)) (rawOf fs actors f2), ?_,
    rfl, rfl, ?_, ?_, ?_, ?_⟩
  · rw [options_eq]
    refine List.mem_cons_of_mem _ ((perm_sortBy _ _).mem_iff.mpr ?_)
    rw [rawEntries_map]
    exact List.mem_map_of_mem _ (List.mem_map_of_mem _ h1)
  · rw [options_eq]
    refine List.mem_cons_of_mem _ ((perm_sortBy _ _).mem_iff.mpr ?_)
    rw [rawEntries_map]
    exact List.mem_map_of_mem _ (List.mem_map_of_mem _ h2)
  · refine ⟨folderBreadcrumb f1 ++ (" [").data,
      ("]").data ++ ((" (").data ++ ((decRepr (rawOf fs actors f1).direct ++ ['/'] ++
        decRepr (rawOf fs actors f1).withSubfolders) ++ (")").data)), ?_⟩
    show entryLabel (crumbCounts (rawEntries fs actors)) (rawOf fs actors f1) = _
    rw [hname1]
    simp [List.append_assoc]
  · refine ⟨folderBreadcrumb f2 ++ (" [").data,
      ("]").data ++ ((" (").data ++ ((decRepr (rawOf fs actors f2).direct ++ ['/'] ++
        decRepr (rawOf fs actors f2).withSubfolders) ++ (")").data)), ?_⟩
    show entryLabel (crumbCounts (rawEntries fs actors)) (rawOf fs actors f2) = _
    rw [hname2]
    simp [List.append_assoc]
  · intro hsid
    show entryLabel (crumbCounts (rawEntries fs actors)) (rawOf fs actors f1) ≠
      entryLabel (crumbCounts (rawEntries fs actors)) (rawOf fs actors f2)
    rw [hname1, hname2, ← hcr]
    intro heqn
    exact hsid (entryLabel_inj (folderBreadcrumb f1) _ _ _ _
      (countLabel_no_bracket _ _) (countLabel_no_bracket _ _) heqn)
  · intro hsid hd hw
    show entryLabel (crumbCounts (rawEntries fs actors)) (rawOf fs actors f1) =
      entryLabel (crumbCounts (rawEntries fs actors)) (rawOf fs actors f2)
    rw [hname1, hname2, hcr, hsid, hd, hw]

/-- C8 witness: two distinct folders with the same breadcrumb yield labels
that both carry their own last-four id fragment, are mutually distinct when
the fragments differ, and coincide when fragments and counts coincide. -/
theorem catalog_dedup_amended_witness :
    exF1 ≠ exF3 ∧ folderBreadcrumb exF1 = folderBreadcrumb exF3 ∧
    ∃ o1 ∈ alphabetizerFolderOptions [exF1, exF3] [],
    ∃ o2 ∈ alphabetizerFolderOptions [exF1, exF3] [],
      o1.id = FolderObj.id exF1 ∧ o2.id = FolderObj.id exF3 ∧
      (∃ u v, o1.name = u ++ (shortId (FolderObj.id exF1) ++ v)) ∧
      (∃ u v, o2.name = u ++ (shortId (FolderObj.id exF3) ++ v)) ∧
      (shortId (FolderObj.id exF1) ≠ shortId (FolderObj.id exF3) → o1.name ≠ o2.name) ∧
      (shortId (FolderObj.id exF1) = shortId (FolderObj.id exF3) →
        (rawOf [exF1, exF3] [] exF1).direct = (rawOf [exF1, exF3] [] exF3).direct →
        (rawOf [exF1, exF3] [] exF1).withSubfolders =
          (rawOf [exF1, exF3] [] exF3).withSubfolders →
        o1.name = o2.name) :=
  ⟨fun h => absurd (congrArg FolderObj.id h) (by decide), by decide,
    catalog_dedup_amended [exF1, exF3] [] exF1 exF3 (by simp) (by simp)
      (fun h => absurd (congrArg FolderObj.id h) (by decide)) (by decide)⟩

theorem runAlphabetizer_eq (w : World) (cfg : Config) :
    runAlphabetizer w cfg =
      (if (scopeActors w cfg).isEmpty then (w, RunResult.emptyScope)
       else if (lettersOf cfg (scopeActors w cfg)).isEmpty then (w, RunResult.noUsableLetters)
       else
         (if (buildUpdatesGo (runEnsure w cfg).1.folders cfg.groupByType
              (runEnsure w cfg).2.2 (scopeActors w cfg) []).isEmpty
          then ((runEnsure w cfg).1, RunResult.nothingToMove)
          else (World.mk (runEnsure w cfg).1.folders
                  (applyUpdates (runEnsure w cfg).1.actors
                    (buildUpdatesGo (runEnsure w cfg).1.folders cfg.groupByType
                      (runEnsure w cfg).2.2 (scopeActors w cfg) []))
                  (runEnsure w cfg).1.nextId,
                RunResult.moved (buildUpdatesGo (runEnsure w cfg).1.folders cfg.groupByType
                  (runEnsure w cfg).2.2 (scopeActors w cfg) []).length))) := rfl

/-- C6: when no actor matches the configured scope, the run reports the
empty-scope outcome and performs no mutation, returning the world
unchanged; when the scope is non-empty but createAllLetters is off and no
in-scope actor yields a classifiable letter, the run reports the
no-usable-letters outcome and likewise performs no mutation. -/
theorem runAlphabetizer_no_mutation (w : World) (cfg : Config) :
    (scopeActors w cfg = [] → runAlphabetizer w cfg = (w, RunResult.emptyScope)) ∧
    (scopeActors w cfg ≠ [] → cfg.createAllLetters = false →
      (∀ a ∈ scopeActors w cfg, normalizeLetter (some a.name) = none) →
      runAlphabetizer w cfg = (w, RunResult.noUsableLetters)) := by
  constructor
  · intro h
    rw [runAlphabetizer_eq, h]
    rfl
  · intro h1 h2 h3
    rw [runAlphabetizer_eq]
    have hletters : lettersOf cfg (scopeActors w cfg) = [] := by
      unfold lettersOf
      rw [h2]
      simp only [Bool.false_eq_true, if_false]
      have : (scopeActors w cfg).filterMap (fun a => normalizeLetter (some a.name)) = [] :=
        List.filterMap_eq_nil_iff.mpr h3
      rw [this]
      rfl
    rw [hletters]
    cases hsc : scopeActors w cfg with
    | nil => exact absurd hsc h1
    | cons a rest => rfl

/-- C6 witness: a world whose single actor is outside the selected scope
triggers the empty-scope outcome without mutation. -/
theorem runAlphabetizer_no_mutation_witness :
    scopeActors (World.mk [] [ActorRec.mk (("a1").data) (("Al").data) (("npc").data) none] 0)
      (Config.mk false false (some (("f9").data)) true) = [] ∧
    runAlphabetizer (World.mk [] [ActorRec.mk (("a1").data) (("Al").data) (("npc").data) none] 0)
      (Config.mk false false (some (("f9").data)) true) =
      (World.mk [] [ActorRec.mk (("a1").data) (("Al").data) (("npc").data) none] 0,
        RunResult.emptyScope) :=
  ⟨by decide,
    (runAlphabetizer_no_mutation
      (World.mk [] [ActorRec.mk (("a1").data) (("Al").data) (("npc").data) none] 0)
      (Config.mk false false (some (("f9").data)) true)).1 (by decide)⟩

theorem ensureFolder_preserves_nodup (w : World) (name : Str) (pid : Option Str)
    (h : NoDupNameParent w.folders) :
    NoDupNameParent ((ensureFolder w name pid).1.folders) := by
  unfold ensureFolder
  cases hf : findChildFolder w.folders name pid with
  | some f => exact h
  | none =>
    show NoDupNameParent (w.folders ++ [madeFolder name pid w.nextId])
    unfold NoDupNameParent at h ⊢
    rw [List.pairwise_append]
    refine ⟨h, List.pairwise_singleton _ _, ?_⟩
    intro f hf2 g hg
    rw [List.mem_singleton] at hg
    subst hg
    rintro ⟨hft, _, hn, hp⟩
    have hnone := List.find?_eq_none.mp hf f hf2
    apply hnone
    simp only [Bool.and_eq_true, beq_iff_eq]
    refine ⟨⟨hft, hn⟩, ?_⟩
    cases pid with
    | none => simp [hp, madeFolder]
    | some p => simp [hp, madeFolder]

theorem ensureTypesGo_nodup (parent : Option Str) :
    ∀ (ts : List (Option Str)) (w : World) (m : List (Str × Str)),
      NoDupNameParent w.folders → NoDupNameParent ((ensureTypesGo parent w ts m).1.folders)
  | [], _, _, h => h
  | t :: ts, w, m, h => by
    rw [ensureTypesGo]
    exact ensureTypesGo_nodup parent ts _ _
      (ensureFolder_preserves_nodup w (strOfOpt t) parent h)

theorem ensureLettersRow_nodup (base : Option Str) (tstr : Str) (group : Bool) :
    ∀ (ls : List Char) (w : World) (m : List (Str × Str)),
      NoDupNameParent w.folders →
      NoDupNameParent ((ensureLettersRow base tstr group w ls m).1.folders)
  | [], _, _, h => h
  | l :: ls, w, m, h => by
    rw [ensureLettersRow]
    exact ensureLettersRow_nodup base tstr group ls _ _
      (ensureFolder_preserves_nodup w [l] base h)

theorem ensureLettersGo_nodup (cfg : Config) (tfi : List (Str × Str)) (letters : List Char) :
    ∀ (ts : List (Option Str)) (w : World) (m : List (Str × Str)),
      NoDupNameParent w.folders →
      NoDupNameParent ((ensureLettersGo cfg tfi letters w ts m).1.folders)
  | [], _, _, h => h
  | t :: ts, w, m, h => by
    rw [ensureLettersGo]
    exact ensureLettersGo_nodup cfg tfi letters ts _ _
      (ensureLettersRow_nodup _ _ _ letters _ _ h)

theorem runEnsure_nodup (w : World) (cfg : Config) (h : NoDupNameParent w.folders) :
    NoDupNameParent ((runEnsure w cfg).1.folders) := by
  unfold runEnsure
  refine ensureLettersGo_nodup _ _ _ _ _ _ ?_
  unfold ensureTypeFolders
  cases cfg.groupByType
  · exact h
  · exact ensureTypesGo_nodup _ _ _ _ h

/-- C4: ensureFolder reuses the existing actor folder with exactly the
requested name and stored parent whenever one exists, appends exactly one
new folder when none exists, and consequently the invariant that no two
actor folders share both name and parent is preserved by a whole
runAlphabetizer run, and therefore across repeated runs over a store that
retains previously created folders. -/
theorem ensureFolder_no_duplicates (w : World) (cfg : Config) :
    (∀ name pid f, findChildFolder w.folders name pid = some f →
      ensureFolder w name pid = (w, f.id)) ∧
    (∀ name pid, findChildFolder w.folders name pid = none →
      (ensureFolder w name pid).1.folders = w.folders ++ [madeFolder name pid w.nextId]) ∧
    (NoDupNameParent w.folders → NoDupNameParent ((runAlphabetizer w cfg).1.folders)) := by
  refine ⟨?_, ?_, ?_⟩
  · intro name pid f hf
    unfold ensureFolder
    rw [hf]
  · intro name pid hf
    unfold ensureFolder
    rw [hf]
  · intro h
    rw [runAlphabetizer_eq]
    by_cases h1 : (scopeActors w cfg).isEmpty
    · rw [if_pos h1]
      exact h
    · rw [if_neg h1]
      by_cases h2 : (lettersOf cfg (scopeActors w cfg)).isEmpty
      · rw [if_pos h2]
        exact h
      · rw [if_neg h2]
        by_cases h3 : (buildUpdatesGo (runEnsure w cfg).1.folders cfg.groupByType
            (runEnsure w cfg).2.2 (scopeActors w cfg) []).isEmpty
        · rw [if_pos h3]
          exact runEnsure_nodup w cfg h
        · rw [if_neg h3]
          exact runEnsure_nodup w cfg h

/-- C4 witness: a repeated ensure of the same name and parent returns the
folder created first, without a second creation. -/
theorem ensureFolder_no_duplicates_witness :
    findChildFolder [FolderRec.mk (("f1").data) (("A").data) (("Actor").data) none]
      (("A").data) none =
      some (FolderRec.mk (("f1").data) (("A").data) (("Actor").data) none) ∧
    ensureFolder (World.mk [FolderRec.mk (("f1").data) (("A").data) (("Actor").data) none] [] 5)
      (("A").data) none =
      (World.mk [FolderRec.mk (("f1").data) (("A").data) (("Actor").data) none] [] 5,
        ("f1").data) :=
  ⟨by decide,
    (ensureFolder_no_duplicates
      (World.mk [FolderRec.mk (("f1").data) (("A").data) (("Actor").data) none] [] 5)
      (Config.mk false false none true)).1 (("A").data) none
      (FolderRec.mk (("f1").data) (("A").data) (("Actor").data) none) (by decide)⟩

theorem genId_inj {n m : Nat} (h : genId n = genId m) : n = m := by
  have := congrArg List.length h
  simp [genId] at this
  exact this

theorem genId_ne_nil (n : Nat) : genId n ≠ [] := by
  simp [genId]

theorem findChildFolder_append_of_some (fs ext : List FolderRec) (name : Str)
    (pid : Option Str) (f : FolderRec) (h : findChildFolder fs name pid = some f) :
    findChildFolder (fs ++ ext) name pid = some f := by
  unfold findChildFolder at h ⊢
  rw [List.find?_append, h]
  rfl

theorem findChildFolder_mem (fs : List FolderRec) (name : Str) (pid : Option Str)
    (f : FolderRec) (h : findChildFolder fs name pid = some f) : f ∈ fs :=
  List.mem_of_find?_eq_some h

theorem findChildFolder_props (fs : List FolderRec) (name : Str) (pid : Option Str)
    (f : FolderRec) (h : findChildFolder fs name pid = some f) :
    f.ftype = actorTypeTag ∧ f.name = name ∧ f.parent = pid := by
  have hp := List.find?_some h
  simp only [Bool.and_eq_true, beq_iff_eq] at hp
  obtain ⟨⟨h1, h2⟩, h3⟩ := hp
  refine ⟨h1, h2, ?_⟩
  cases pid with
  | none => simpa using h3
  | some p => simpa using h3

theorem madeFolder_matches (name : Str) (pid : Option Str) (n : Nat) :
    findChildFolder [madeFolder name pid n] name pid = some (madeFolder name pid n) := by
  unfold findChildFolder madeFolder
  cases pid with
  | none => simp [List.find?]
  | some p => simp [List.find?]

theorem ensureFolder_found_post (w : World) (name : Str) (pid : Option Str) :
    ∃ f, findChildFolder (ensureFolder w name pid).1.folders name pid = some f ∧
      f.id = (ensureFolder w name pid).2 := by
  unfold ensureFolder
  cases hf : findChildFolder w.folders name pid with
  | some f => exact ⟨f, hf, rfl⟩
  | none =>
    refine ⟨madeFolder name pid w.nextId, ?_, rfl⟩
    show findChildFolder (w.folders ++ [madeFolder name pid w.nextId]) name pid = _
    unfold findChildFolder at hf ⊢
    rw [List.find?_append, hf]
    have := madeFolder_matches name pid w.nextId
    unfold findChildFolder at this
    rw [this]
    rfl

theorem ensureFolder_state (w : World) (name : Str) (pid : Option Str) :
    ∃ ext, (ensureFolder w name pid).1.folders = w.folders ++ ext ∧
      (ensureFolder w name pid).1.actors = w.actors ∧
      w.nextId ≤ (ensureFolder w name pid).1.nextId ∧
      (∀ g ∈ ext, g.ftype = actorTypeTag ∧ g.name = name ∧ g.parent = pid ∧
        ∃ n, w.nextId ≤ n ∧ n < (ensureFolder w name pid).1.nextId ∧ g.id = genId n) := by
  unfold ensureFolder
  cases hf : findChildFolder w.folders name pid with
  | some f => exact ⟨[], by simp, rfl, Nat.le_refl _, by simp⟩
  | none =>
    refine ⟨[madeFolder name pid w.nextId], rfl, rfl, by simp, ?_⟩
    intro g hg
    rw [List.mem_singleton] at hg
    subst hg
    exact ⟨rfl, rfl, rfl, w.nextId, Nat.le_refl _, by simp, rfl⟩

theorem buildUpdatesGo_eq_filterMap (folders : List FolderRec) (group : Bool)
    (lfi : List (Str × Str)) :
    ∀ (as : List ActorRec) (ups : List (Str × Str)),
      buildUpdatesGo folders group lfi as ups = ups ++ as.filterMap (actorUpdate folders group lfi)
  | [], ups => by simp [buildUpdatesGo]
  | a :: as, ups => by
    rw [buildUpdatesGo, List.filterMap_cons]
    cases hu : actorUpdate folders group lfi a with
    | none => exact buildUpdatesGo_eq_filterMap folders group lfi as ups
    | some u =>
      show buildUpdatesGo folders group lfi as (ups ++ [u]) =
        ups ++ (u :: (as.filterMap (actorUpdate folders group lfi)))
      rw [buildUpdatesGo_eq_filterMap folders group lfi as (ups ++ [u])]
      simp

theorem ensureTypesGo_cons (parent : Option Str) (w : World) (t : Option Str)
    (ts : List (Option Str)) (m : List (Str × Str)) :
    ensureTypesGo parent w (t :: ts) m =
      ensureTypesGo parent (ensureFolder w (strOfOpt t) parent).1 ts
        (mapSet m (strOfOpt t) (ensureFolder w (strOfOpt t) parent).2) := rfl

theorem ensureLettersRow_cons (base : Option Str) (tstr : Str) (group : Bool) (w : World)
    (l : Char) (ls : List Char) (m : List (Str × Str)) :
    ensureLettersRow base tstr group w (l :: ls) m =
      ensureLettersRow base tstr group (ensureFolder w [l] base).1 ls
        (mapSet m (bucketKey group tstr l) (ensureFolder w [l] base).2) := rfl

theorem ensureLettersGo_cons (cfg : Config) (tfi : List (Str × Str)) (letters : List Char)
    (w : World) (t : Option Str) (ts : List (Option Str)) (m : List (Str × Str)) :
    ensureLettersGo cfg tfi letters w (t :: ts) m =
      ensureLettersGo cfg tfi letters
        (ensureLettersRow (if cfg.groupByType then mapGet tfi (strOfOpt t) else cfg.parentFolderId)
          (strOfOpt t) cfg.groupByType w letters m).1 ts
        (ensureLettersRow (if cfg.groupByType then mapGet tfi (strOfOpt t) else cfg.parentFolderId)
          (strOfOpt t) cfg.groupByType w letters m).2 := rfl

theorem worldExt_refl (w : World) : WorldExt w w :=
  ⟨rfl, Nat.le_refl _, [], by simp, by simp⟩

theorem worldExt_trans {w1 w2 w3 : World} (h1 : WorldExt w1 w2) (h2 : WorldExt w2 w3) :
    WorldExt w1 w3 := by
  obtain ⟨ha1, hn1, e1, hf1, he1⟩ := h1
  obtain ⟨ha2, hn2, e2, hf2, he2⟩ := h2
  refine ⟨ha2.trans ha1, Nat.le_trans hn1 hn2, e1 ++ e2, by rw [hf2, hf1, List.append_assoc], ?_⟩
  intro g hg
  rcases List.mem_append.mp hg with h | h
  · exact he1 g h
  · obtain ⟨hft, n, hn, hid⟩ := he2 g h
    exact ⟨hft, n, Nat.le_trans hn1 hn, hid⟩

theorem ensureFolder_worldExt (w : World) (name : Str) (pid : Option Str) :
    WorldExt w (ensureFolder w name pid).1 := by
  obtain ⟨ext, hfold, hact, hnext, hmem⟩ := ensureFolder_state w name pid
  refine ⟨hact, hnext, ext, hfold, ?_⟩
  intro g hg
  obtain ⟨h1, _, _, n, hn1, _, hid⟩ := hmem g hg
  exact ⟨h1, n, hn1, hid⟩

theorem ensureTypesGo_worldExt (parent : Option Str) :
    ∀ (ts : List (Option Str)) (w : World) (m : List (Str × Str)),
      WorldExt w (ensureTypesGo parent w ts m).1
  | [], w, _ => worldExt_refl w
  | t :: ts, w, m => by
    rw [ensureTypesGo_cons]
    exact worldExt_trans (ensureFolder_worldExt w (strOfOpt t) parent)
      (ensureTypesGo_worldExt parent ts _ _)

theorem ensureLettersRow_worldExt (base : Option Str) (tstr : Str) (group : Bool) :
    ∀ (ls : List Char) (w : World) (m : List (Str × Str)),
      WorldExt w (ensureLettersRow base tstr group w ls m).1
  | [], w, _ => worldExt_refl w
  | l :: ls, w, m => by
    rw [ensureLettersRow_cons]
    exact worldExt_trans (ensureFolder_worldExt w [l] base)
      (ensureLettersRow_worldExt base tstr group ls _ _)

theorem ensureLettersGo_worldExt (cfg : Config) (tfi : List (Str × Str)) (letters : List Char) :
    ∀ (ts : List (Option Str)) (w : World) (m : List (Str × Str)),
      WorldExt w (ensureLettersGo cfg tfi letters w ts m).1
  | [], w, _ => worldExt_refl w
  | t :: ts, w, m => by
    rw [ensureLettersGo_cons]
    exact worldExt_trans (ensureLettersRow_worldExt _ _ _ letters w m)
      (ensureLettersGo_worldExt cfg tfi letters ts _ _)

theorem runEnsure_worldExt (w : World) (cfg : Config) : WorldExt w (runEnsure w cfg).1 := by
  unfold runEnsure
  have h1 : WorldExt w (ensureTypeFolders w cfg (typePartitions cfg (scopeActors w cfg))).1 := by
    unfold ensureTypeFolders
    cases cfg.groupByType
    · exact worldExt_refl w
    · exact ensureTypesGo_worldExt _ _ _ _
  exact worldExt_trans h1 (ensureLettersGo_worldExt _ _ _ _ _ _)

theorem findChildFolder_stable {w w' : World} (h : WorldExt w w') (name : Str)
    (pid : Option Str) (f : FolderRec) (hf : findChildFolder w.folders name pid = some f) :
    findChildFolder w'.folders name pid = some f := by
  obtain ⟨_, _, ext, hfold, _⟩ := h
  rw [hfold]
  exact findChildFolder_append_of_some _ _ _ _ _ hf

theorem bucketKey_letter_inj {g : Bool} {t : Str} {l l' : Char}
    (h : bucketKey g t l = bucketKey g t l') : l = l' := by
  unfold bucketKey at h
  cases g
  · simp only [Bool.false_eq_true, if_false] at h
    simpa using h
  · simp only [if_true] at h
    simpa using h

theorem bucketKey_true_inj {t1 t2 : Str} {l1 l2 : Char}
    (h : bucketKey true t1 l1 = bucketKey true t2 l2) : t1 = t2 ∧ l1 = l2 := by
  unfold bucketKey at h
  simp only [if_true] at h
  have hlen := congrArg List.length h
  simp only [List.length_append, List.length_cons, List.length_nil] at hlen
  have hlen2 : (t1 ++ ("::").data).length = (t2 ++ ("::").data).length := by
    simp only [List.length_append]
    omega
  obtain ⟨h1, h2⟩ := List.append_inj h hlen2
  have ht : t1 = t2 := (List.append_inj h1 (by simp at hlen ⊢; omega)).1
  have hl : l1 = l2 := by simpa using h2
  exact ⟨ht, hl⟩

theorem ensureTypesGo_spec (parent : Option Str) :
    ∀ (ts : List (Option Str)) (w : World) (m : List (Str × Str)),
      (ts.map strOfOpt).Nodup →
      (∀ t ∈ ts, ∃ f,
        findChildFolder (ensureTypesGo parent w ts m).1.folders (strOfOpt t) parent = some f ∧
        mapGet (ensureTypesGo parent w ts m).2 (strOfOpt t) = some f.id) ∧
      (∀ k, (∀ t ∈ ts, k ≠ strOfOpt t) →
        mapGet (ensureTypesGo parent w ts m).2 k = mapGet m k)
  | [], _, _, _ => ⟨by simp, fun _ _ => rfl⟩
  | t :: ts, w, m, hnd => by
    rw [ensureTypesGo_cons]
    have hnd2 : (strOfOpt t :: ts.map strOfOpt).Nodup := by simpa using hnd
    have hnd' : (ts.map strOfOpt).Nodup := (List.nodup_cons.mp hnd2).2
    have hnotin : strOfOpt t ∉ ts.map strOfOpt := (List.nodup_cons.mp hnd2).1
    obtain ⟨ihspec, ihuntouched⟩ := ensureTypesGo_spec parent ts
      (ensureFolder w (strOfOpt t) parent).1
      (mapSet m (strOfOpt t) (ensureFolder w (strOfOpt t) parent).2) hnd'
    constructor
    · intro t' ht'
      rcases List.mem_cons.mp ht' with h | h
      · subst h
        obtain ⟨f, hf, hid⟩ := ensureFolder_found_post w (strOfOpt t') parent
        refine ⟨f, ?_, ?_⟩
        · exact findChildFolder_stable (ensureTypesGo_worldExt parent ts _ _) _ _ _ hf
        · rw [ihuntouched (strOfOpt t')
            (fun t2 ht2 he => hnotin (he ▸ List.mem_map_of_mem _ ht2))]
          rw [mapGet_set_self, hid]
      · exact ihspec t' h
    · intro k hk
      rw [ihuntouched k (fun t2 ht2 => hk t2 (List.mem_cons_of_mem _ ht2))]
      exact mapGet_set_ne _ _ _ _ (hk t (List.mem_cons_self _ _))

theorem ensureLettersRow_spec (base : Option Str) (tstr : Str) (group : Bool) :
    ∀ (ls : List Char) (w : World) (m : List (Str × Str)), ls.Nodup →
      (∀ l ∈ ls, ∃ f,
        findChildFolder (ensureLettersRow base tstr group w ls m).1.folders [l] base = some f ∧
        mapGet (ensureLettersRow base tstr group w ls m).2 (bucketKey group tstr l) = some f.id) ∧
      (∀ k, (∀ l ∈ ls, k ≠ bucketKey group tstr l) →
        mapGet (ensureLettersRow base tstr group w ls m).2 k = mapGet m k)
  | [], _, _, _ => ⟨by simp, fun _ _ => rfl⟩
  | l :: ls, w, m, hnd => by
    rw [ensureLettersRow_cons]
    have hnd' : ls.Nodup := (List.nodup_cons.mp hnd).2
    have hnotin : l ∉ ls := (List.nodup_cons.mp hnd).1
    obtain ⟨ihspec, ihuntouched⟩ := ensureLettersRow_spec base tstr group ls
      (ensureFolder w [l] base).1
      (mapSet m (bucketKey group tstr l) (ensureFolder w [l] base).2) hnd'
    constructor
    · intro l' hl'
      rcases List.mem_cons.mp hl' with h | h
      · subst h
        obtain ⟨f, hf, hid⟩ := ensureFolder_found_post w [l'] base
        refine ⟨f, ?_, ?_⟩
        · exact findChildFolder_stable (ensureLettersRow_worldExt base tstr group ls _ _) _ _ _ hf
        · rw [ihuntouched (bucketKey group tstr l')
            (fun l2 hl2 he => hnotin (bucketKey_letter_inj he ▸ hl2))]
          rw [mapGet_set_self, hid]
      · exact ihspec l' h
    · intro k hk
      rw [ihuntouched k (fun l2 hl2 => hk l2 (List.mem_cons_of_mem _ hl2))]
      exact mapGet_set_ne _ _ _ _ (hk l (List.mem_cons_self _ _))

theorem ensureLettersGo_spec_group (cfg : Config) (tfi : List (Str × Str))
    (letters : List Char) (hg : cfg.groupByType = true) (hletters : letters.Nodup) :
    ∀ (ts : List (Option Str)) (w : World) (m : List (Str × Str)),
      (ts.map strOfOpt).Nodup →
      (∀ t ∈ ts, ∀ l ∈ letters, ∃ f,
        findChildFolder (ensureLettersGo cfg tfi letters w ts m).1.folders [l]
          (mapGet tfi (strOfOpt t)) = some f ∧
        mapGet (ensureLettersGo cfg tfi letters w ts m).2
          (bucketKey true (strOfOpt t) l) = some f.id) ∧
      (∀ k, (∀ t ∈ ts, ∀ l ∈ letters, k ≠ bucketKey true (strOfOpt t) l) →
        mapGet (ensureLettersGo cfg tfi letters w ts m).2 k = mapGet m k)
  | [], _, _, _ => ⟨by simp, fun _ _ => rfl⟩
  | t :: ts, w, m, hnd => by
    rw [ensureLettersGo_cons]
    have hbase : (if cfg.groupByType then mapGet tfi (strOfOpt t) else cfg.parentFolderId) =
        mapGet tfi (strOfOpt t) := by rw [hg]; rfl
    rw [hbase]
    have hnd2 : (strOfOpt t :: ts.map strOfOpt).Nodup := by simpa using hnd
    have hnd' : (ts.map strOfOpt).Nodup := (List.nodup_cons.mp hnd2).2
    have hnotin : strOfOpt t ∉ ts.map strOfOpt := (List.nodup_cons.mp hnd2).1
    obtain ⟨rowspec, rowuntouched⟩ :=
      ensureLettersRow_spec (mapGet tfi (strOfOpt t)) (strOfOpt t) cfg.groupByType
        letters w m hletters
    obtain ⟨ihspec, ihuntouched⟩ := ensureLettersGo_spec_group cfg tfi letters hg hletters ts
      (ensureLettersRow (mapGet tfi (strOfOpt t)) (strOfOpt t) cfg.groupByType w letters m).1
      (ensureLettersRow (mapGet tfi (strOfOpt t)) (strOfOpt t) cfg.groupByType w letters m).2
      hnd'
    constructor
    · intro t' ht' l hl
      rcases List.mem_cons.mp ht' with h | h
      · subst h
        obtain ⟨f, hf, hid⟩ := rowspec l hl
        refine ⟨f, ?_, ?_⟩
        · exact findChildFolder_stable (ensureLettersGo_worldExt cfg tfi letters ts _ _) _ _ _ hf
        · rw [ihuntouched (bucketKey true (strOfOpt t') l) ?_]
          · rw [← hg]
            exact hid
          · intro t2 ht2 l2 _ he
            exact hnotin ((bucketKey_true_inj he).1 ▸ List.mem_map_of_mem _ ht2)
      · exact ihspec t' h l hl
    · intro k hk
      rw [ihuntouched k (fun t2 ht2 l2 hl2 => hk t2 (List.mem_cons_of_mem _ ht2) l2 hl2)]
      rw [rowuntouched k ?_]
      intro l2 hl2
      rw [hg]
      exact hk t (List.mem_cons_self _ _) l2 hl2

theorem ensureFolder_of_found (w : World) (name : Str) (pid : Option Str) (f : FolderRec)
    (hf : findChildFolder w.folders name pid = some f) :
    ensureFolder w name pid = (w, f.id) := by
  unfold ensureFolder
  rw [hf]

theorem ensureTypesGo_state_of_allfound (parent : Option Str) :
    ∀ (ts : List (Option Str)) (w : World) (m : List (Str × Str)),
      (∀ t ∈ ts, findChildFolder w.folders (strOfOpt t) parent ≠ none) →
      (ensureTypesGo parent w ts m).1 = w
  | [], _, _, _ => rfl
  | t :: ts, w, m, h => by
    rw [ensureTypesGo_cons]
    cases hf : findChildFolder w.folders (strOfOpt t) parent with
    | none => exact absurd hf (h t (List.mem_cons_self _ _))
    | some f =>
      rw [ensureFolder_of_found w _ _ f hf]
      exact ensureTypesGo_state_of_allfound parent ts w _
        (fun t' ht' => h t' (List.mem_cons_of_mem _ ht'))

theorem ensureLettersRow_state_of_allfound (base : Option Str) (tstr : Str) (group : Bool) :
    ∀ (ls : List Char) (w : World) (m : List (Str × Str)),
      (∀ l ∈ ls, findChildFolder w.folders [l] base ≠ none) →
      (ensureLettersRow base tstr group w ls m).1 = w
  | [], _, _, _ => rfl
  | l :: ls, w, m, h => by
    rw [ensureLettersRow_cons]
    cases hf : findChildFolder w.folders [l] base with
    | none => exact absurd hf (h l (List.mem_cons_self _ _))
    | some f =>
      rw [ensureFolder_of_found w _ _ f hf]
      exact ensureLettersRow_state_of_allfound base tstr group ls w _
        (fun l' hl' => h l' (List.mem_cons_of_mem _ hl'))

theorem ensureLettersGo_state_of_allfound (cfg : Config) (tfi : List (Str × Str))
    (letters : List Char) :
    ∀ (ts : List (Option Str)) (w : World) (m : List (Str × Str)),
      (∀ t ∈ ts, ∀ l ∈ letters, findChildFolder w.folders [l]
        (if cfg.groupByType then mapGet tfi (strOfOpt t) else cfg.parentFolderId) ≠ none) →
      (ensureLettersGo cfg tfi letters w ts m).1 = w
  | [], _, _, _ => rfl
  | t :: ts, w, m, h => by
    rw [ensureLettersGo_cons]
    have hrow : (ensureLettersRow
        (if cfg.groupByType then mapGet tfi (strOfOpt t) else cfg.parentFolderId)
        (strOfOpt t) cfg.groupByType w letters m).1 = w :=
      ensureLettersRow_state_of_allfound _ _ _ letters w m
        (fun l hl => h t (List.mem_cons_self _ _) l hl)
    rw [hrow]
    exact ensureLettersGo_state_of_allfound cfg tfi letters ts w _
      (fun t' ht' l hl => h t' (List.mem_cons_of_mem _ ht') l hl)

theorem runEnsure_eq (w : World) (cfg : Config) :
    runEnsure w cfg =
      ((ensureLettersGo cfg
          (ensureTypeFolders w cfg (typePartitions cfg (scopeActors w cfg))).2
          (lettersOf cfg (scopeActors w cfg))
          (ensureTypeFolders w cfg (typePartitions cfg (scopeActors w cfg))).1
          (typePartitions cfg (scopeActors w cfg)) []).1,
       (ensureTypeFolders w cfg (typePartitions cfg (scopeActors w cfg))).2,
       (ensureLettersGo cfg
          (ensureTypeFolders w cfg (typePartitions cfg (scopeActors w cfg))).2
          (lettersOf cfg (scopeActors w cfg))
          (ensureTypeFolders w cfg (typePartitions cfg (scopeActors w cfg))).1
          (typePartitions cfg (scopeActors w cfg)) []).2) := rfl

theorem mem_azLetters {c : Char} (h1 : 'A' ≤ c) (h2 : c ≤ 'Z') : c ∈ azLetters := by
  have hall : ∀ n < 91, 65 ≤ n → Char.ofNat n ∈ azLetters := by decide
  have hc1 := charLe_toNat.mp h1
  have hc2 := charLe_toNat.mp h2
  have hA : ('A').toNat = 65 := rfl
  have hZ : ('Z').toNat = 90 := rfl
  rw [hA] at hc1
  rw [hZ] at hc2
  have := hall c.toNat (by omega) hc1
  rwa [Char.ofNat_toNat] at this

theorem mem_lettersOf (cfg : Config) (inScopeList : List ActorRec) (a : ActorRec) (l : Char)
    (ha : a ∈ inScopeList) (hl : normalizeLetter (some a.name) = some l) :
    l ∈ lettersOf cfg inScopeList := by
  unfold lettersOf
  by_cases hc : cfg.createAllLetters = true
  · rw [if_pos hc]
    have hr := (normalizeLetter_correct (some a.name)).2.1 l hl
    exact mem_azLetters hr.1 hr.2
  · rw [if_neg hc]
    exact (perm_sortBy _ _).mem_iff.mpr
      ((mem_dedupKeep _ l).mpr (List.mem_filterMap.mpr ⟨a, ha, hl⟩))

theorem nodup_lettersOf (cfg : Config) (inScopeList : List ActorRec) :
    (lettersOf cfg inScopeList).Nodup := by
  unfold lettersOf
  by_cases hc : cfg.createAllLetters = true
  · rw [if_pos hc]
    decide
  · rw [if_neg hc]
    exact ((perm_sortBy _ _).nodup_iff).mpr (nodup_dedupKeep _)

theorem mem_typePartitions (cfg : Config) (inScopeList : List ActorRec) (a : ActorRec)
    (ha : a ∈ inScopeList) (hg : cfg.groupByType = true) :
    some a.atype ∈ typePartitions cfg inScopeList := by
  unfold typePartitions
  rw [if_pos hg]
  exact List.mem_map_of_mem some
    ((perm_sortBy _ _).mem_iff.mpr ((mem_dedupKeep _ _).mpr (List.mem_map_of_mem _ ha)))

theorem nodup_typePartitions_keys (cfg : Config) (inScopeList : List ActorRec) :
    ((typePartitions cfg inScopeList).map strOfOpt).Nodup := by
  unfold typePartitions
  by_cases hg : cfg.groupByType = true
  · rw [if_pos hg, List.map_map]
    have hco : (strOfOpt ∘ some) = (id : Str → Str) := funext (fun _ => rfl)
    rw [hco, List.map_id]
    exact ((perm_sortBy _ _).nodup_iff).mpr (nodup_dedupKeep _)
  · rw [if_neg hg]
    simp

theorem bucketKey_group_false (t u : Str) (L : Char) :
    bucketKey false t L = bucketKey false u L := rfl

/-- C9: in the assignment pass every bucket-key lookup for an in-scope actor
with a classified letter succeeds: the letter set of the ensure pass covers
the actor's letter, when grouping the partition set covers the actor's
stringified type, and the letter-folder map built by the ensure pass binds
the actor's bucket key, so the skip-if-absent branch is unreachable. -/
theorem letterFolder_lookup_total (w : World) (cfg : Config) (a : ActorRec) (l : Char)
    (ha : a ∈ scopeActors w cfg) (hl : normalizeLetter (some a.name) = some l) :
    l ∈ lettersOf cfg (scopeActors w cfg) ∧
    (cfg.groupByType = true → some a.atype ∈ typePartitions cfg (scopeActors w cfg)) ∧
    ∃ dest, mapGet (runEnsure w cfg).2.2 (bucketKey cfg.groupByType a.atype l) = some dest := by
  have hlet : l ∈ lettersOf cfg (scopeActors w cfg) := mem_lettersOf cfg _ a l ha hl
  refine ⟨hlet, fun hg => mem_typePartitions cfg _ a ha hg, ?_⟩
  rw [runEnsure_eq]
  by_cases hg : cfg.groupByType = true
  · obtain ⟨spec, _⟩ := ensureLettersGo_spec_group cfg
      (ensureTypeFolders w cfg (typePartitions cfg (scopeActors w cfg))).2
      (lettersOf cfg (scopeActors w cfg)) hg (nodup_lettersOf cfg _)
      (typePartitions cfg (scopeActors w cfg))
      (ensureTypeFolders w cfg (typePartitions cfg (scopeActors w cfg))).1 []
      (nodup_typePartitions_keys cfg _)
    obtain ⟨f, _, hbind⟩ := spec (some a.atype) (mem_typePartitions cfg _ a ha hg) l hlet
    rw [hg]
    exact ⟨f.id, hbind⟩
  · have hgf : cfg.groupByType = false := Bool.not_eq_true _ ▸ Bool.eq_false_iff.mpr hg
    have htp : typePartitions cfg (scopeActors w cfg) = [none] := by
      unfold typePartitions
      rw [if_neg hg]
    rw [htp, ensureLettersGo_cons]
    obtain ⟨spec, _⟩ := ensureLettersRow_spec
      (if cfg.groupByType then
        mapGet (ensureTypeFolders w cfg [none]).2 (strOfOpt none)
       else cfg.parentFolderId)
      (strOfOpt none) cfg.groupByType (lettersOf cfg (scopeActors w cfg))
      (ensureTypeFolders w cfg [none]).1 []
      (nodup_lettersOf cfg _)
    obtain ⟨f, _, hbind⟩ := spec l hlet
    rw [hgf] at hbind ⊢
    rw [bucketKey_group_false a.atype (strOfOpt none) l]
    exact ⟨f.id, hbind⟩

def exActorC9 : ActorRec :=
  { id := ("a1").data, name := ("Bob").data, atype := ("npc").data, folder := none }

def exWorldC9 : World := { folders := [], actors := [exActorC9], nextId := 0 }

def exCfgC9 : Config :=
  { createAllLetters := false, groupByType := true,
    parentFolderId := none, includeSubfolders := false }

theorem letterFolder_lookup_total_witness :
    (exActorC9 ∈ scopeActors exWorldC9 exCfgC9 ∧
     normalizeLetter (some exActorC9.name) = some 'B') ∧
    ('B' ∈ lettersOf exCfgC9 (scopeActors exWorldC9 exCfgC9) ∧
     (exCfgC9.groupByType = true →
       some exActorC9.atype ∈ typePartitions exCfgC9 (scopeActors exWorldC9 exCfgC9)) ∧
     ∃ dest, mapGet (runEnsure exWorldC9 exCfgC9).2.2
       (bucketKey exCfgC9.groupByType exActorC9.atype 'B') = some dest) :=
  ⟨⟨by decide, by decide⟩,
   letterFolder_lookup_total exWorldC9 exCfgC9 exActorC9 'B' (by decide) (by decide)⟩

theorem findChildFolder_made_ne (base : Option Str) (l l2 : Char) (n : Nat)
    (hne : l ≠ l2) :
    findChildFolder [madeFolder [l] base n] [l2] base = none := by
  have hne2 : (([l] : Str) == [l2]) = false := by
    simp [hne]
  unfold findChildFolder
  cases base <;> simp [List.find?, madeFolder, hne2]

theorem ensureLettersRow_count (base : Option Str) (tstr : Str) (group : Bool) :
    ∀ (ls : List Char) (w : World) (m : List (Str × Str)), ls.Nodup →
      (ensureLettersRow base tstr group w ls m).1.folders.length +
        (ls.filter (fun l => (findChildFolder w.folders [l] base).isSome)).length =
      w.folders.length + ls.length
  | [], _, _, _ => by simp [ensureLettersRow]
  | l :: ls, w, m, hnd => by
    rw [ensureLettersRow_cons]
    have hnotin : l ∉ ls := (List.nodup_cons.mp hnd).1
    have hnd' : ls.Nodup := (List.nodup_cons.mp hnd).2
    cases hf : findChildFolder w.folders [l] base with
    | some f =>
      rw [ensureFolder_of_found w _ _ f hf]
      rw [List.filter_cons_of_pos (by simp [hf])]
      have ih := ensureLettersRow_count base tstr group ls w
        (mapSet m (bucketKey group tstr l) f.id) hnd'
      simp only [List.length_cons]
      omega
    | none =>
      have hef1 : (ensureFolder w [l] base).1.folders =
          w.folders ++ [madeFolder [l] base w.nextId] := by
        unfold ensureFolder
        rw [hf]
      rw [List.filter_cons_of_neg (by simp [hf])]
      have hsame : ∀ l2 ∈ ls,
          findChildFolder (w.folders ++ [madeFolder [l] base w.nextId]) [l2] base =
          findChildFolder w.folders [l2] base := by
        intro l2 hl2
        cases horig : findChildFolder w.folders [l2] base with
        | some g => exact findChildFolder_append_of_some _ _ _ _ _ horig
        | none =>
          unfold findChildFolder at horig ⊢
          rw [List.find?_append, horig, Option.none_or]
          exact findChildFolder_made_ne base l l2 w.nextId
            (fun he => hnotin (he ▸ hl2))
      have hfe : ls.filter (fun l2 =>
            (findChildFolder (w.folders ++ [madeFolder [l] base w.nextId]) [l2] base).isSome) =
          ls.filter (fun l2 => (findChildFolder w.folders [l2] base).isSome) := by
        apply List.filter_congr
        intro l2 hl2
        rw [hsame l2 hl2]
      have ih := ensureLettersRow_count base tstr group ls
        (ensureFolder w [l] base).1
        (mapSet m (bucketKey group tstr l) (ensureFolder w [l] base).2) hnd'
      rw [hef1, hfe] at ih
      simp only [List.length_append, List.length_cons, List.length_nil] at ih ⊢
      omega

theorem ensureLettersGo_nil (cfg : Config) (tfi : List (Str × Str)) (letters : List Char)
    (w : World) (m : List (Str × Str)) :
    ensureLettersGo cfg tfi letters w [] m = (w, m) := rfl

def exFolderC7 : FolderRec :=
  { id := ("f1").data, name := ("A").data, ftype := actorTypeTag, parent := none }

def exActorC7 : ActorRec :=
  { id := ("a1").data, name := ("Bob").data, atype := ("npc").data, folder := none }

def exWorldC7 : World := { folders := [exFolderC7], actors := [exActorC7], nextId := 0 }

def exCfgC7 : Config :=
  { createAllLetters := true, groupByType := false,
    parentFolderId := none, includeSubfolders := false }

/-- C7 counterexample: with createAllLetters on, a non-empty scope and a
single active partition, a pre-existing folder named A under the base is
reused, so the ensure pass creates 25 folders, not 26. -/
theorem letter_creation_counterexample :
    exCfgC7.createAllLetters = true ∧
    (scopeActors exWorldC7 exCfgC7).isEmpty = false ∧
    typePartitions exCfgC7 (scopeActors exWorldC7 exCfgC7) = [none] ∧
    (runEnsure exWorldC7 exCfgC7).1.folders.length = exWorldC7.folders.length + 25 := by
  decide

theorem applyUpdates_nil (as : List ActorRec) : applyUpdates as [] = as := by
  unfold applyUpdates
  simp [List.find?]

theorem actorId_inj {as : List ActorRec} (hnd : (as.map ActorRec.id).Nodup)
    {a b : ActorRec} (ha : a ∈ as) (hb : b ∈ as) (hid : a.id = b.id) : a = b :=
  List.inj_on_of_nodup_map hnd ha hb hid

theorem actorUpdate_shape (folders : List FolderRec) (group : Bool) (lfi : List (Str × Str))
    (a : ActorRec) (u : Str × Str) (h : actorUpdate folders group lfi a = some u) :
    ∃ l dest, u = (a.id, dest) ∧
      normalizeLetter (some a.name) = some l ∧
      mapGet lfi (bucketKey group a.atype l) = some dest ∧
      dest ≠ [] ∧
      ((a.folder.bind (lookupFolder folders)).map FolderRec.id) ≠ some dest := by
  unfold actorUpdate at h
  split at h
  next => exact absurd h (by simp)
  next l hl =>
    split at h
    next => exact absurd h (by simp)
    next dest hm =>
      split at h
      next hd => exact absurd h (by simp)
      next hd =>
        split at h
        next hres => exact absurd h (by simp)
        next hres =>
          exact ⟨l, dest, (Option.some_inj.mp h).symm, hl, hm,
            by simpa using hd, by simpa using hres⟩

theorem updates_find (folders : List FolderRec) (group : Bool) (lfi : List (Str × Str)) :
    ∀ (inScopeList : List ActorRec) (a : ActorRec),
      (∀ b ∈ inScopeList, b.id = a.id → b = a) →
      ((inScopeList.filterMap (actorUpdate folders group lfi)).find? (fun u => u.1 == a.id)) =
        (if a ∈ inScopeList then actorUpdate folders group lfi a else none)
  | [], a, _ => by simp
  | b :: rest, a, hinj => by
    have hrest := updates_find folders group lfi rest a
      (fun c hc => hinj c (List.mem_cons_of_mem _ hc))
    cases hub : actorUpdate folders group lfi b with
    | none =>
      rw [List.filterMap_cons_none hub, hrest]
      by_cases hab : a = b
      · subst hab
        rw [if_pos (List.mem_cons_self _ _)]
        by_cases hmem : a ∈ rest
        · rw [if_pos hmem]
        · rw [if_neg hmem, hub]
      · have hmr : (a ∈ b :: rest) ↔ (a ∈ rest) := by
          simp [List.mem_cons, hab]
        exact (if_congr hmr rfl rfl).symm
    | some u =>
      obtain ⟨l, dest, hu, _, _, _, _⟩ := actorUpdate_shape folders group lfi b u hub
      rw [List.filterMap_cons_some hub]
      by_cases hba : b.id = a.id
      · have hab : b = a := hinj b (List.mem_cons_self _ _) hba
        subst hab
        rw [List.find?_cons_of_pos _ (by rw [hu]; simp)]
        rw [if_pos (List.mem_cons_self _ _), hub]
      · rw [List.find?_cons_of_neg _ (by rw [hu]; simpa using hba)]
        rw [hrest]
        have hab : ¬ a = b := fun he => hba (he ▸ rfl)
        have hmr : (a ∈ b :: rest) ↔ (a ∈ rest) := by
          simp [List.mem_cons, hab]
        exact (if_congr hmr rfl rfl).symm

theorem lookupFolder_id (fs : List FolderRec) (fid : Str) (g : FolderRec)
    (hg : g ∈ fs) (hid : g.id = fid) :
    ∃ p, lookupFolder fs fid = some p ∧ p.id = fid := by
  have hs : (fs.find? (fun f => f.id == fid)).isSome :=
    List.find?_isSome.mpr ⟨g, hg, by simp [hid]⟩
  cases hp : fs.find? (fun f => f.id == fid) with
  | none => rw [hp] at hs; exact absurd hs (by simp)
  | some p =>
    refine ⟨p, hp, ?_⟩
    have := List.find?_some hp
    simpa using this

theorem lookupFolder_append_of_some (fs ext : List FolderRec) (fid : Str) (p : FolderRec)
    (h : lookupFolder fs fid = some p) : lookupFolder (fs ++ ext) fid = some p := by
  unfold lookupFolder at h ⊢
  rw [List.find?_append, h]
  rfl

theorem lookupFolder_mem (fs : List FolderRec) (fid : Str) (p : FolderRec)
    (h : lookupFolder fs fid = some p) : p ∈ fs :=
  List.mem_of_find?_eq_some h

theorem lookupFolder_id_of_some (fs : List FolderRec) (fid : Str) (p : FolderRec)
    (h : lookupFolder fs fid = some p) : p.id = fid := by
  have := List.find?_some h
  simpa using this

theorem isDescW_fuel (fs : List FolderRec) (rank : Str → Nat) (hr : RankOKW fs rank) :
    ∀ (fuel fuel2 : Nat) (cur : FolderRec) (aid : Str), cur ∈ fs →
      rank cur.id < fuel → rank cur.id < fuel2 →
      isDescendantFolderW fs fuel cur aid = isDescendantFolderW fs fuel2 cur aid
  | 0, _, _, _, _, h1, _ => absurd h1 (Nat.not_lt_zero _)
  | _+1, 0, _, _, _, _, h2 => absurd h2 (Nat.not_lt_zero _)
  | f+1, g+1, cur, aid, hmem, h1, h2 => by
    unfold isDescendantFolderW
    cases hp : cur.parent with
    | none => simp only [hp]
    | some pid =>
      simp only [hp]
      cases hl : lookupFolder fs pid with
      | none => simp only [hl]
      | some p =>
        simp only [hl]
        by_cases hpa : (p.id == aid) = true
        · rw [if_pos hpa, if_pos hpa]
        · rw [if_neg hpa, if_neg hpa]
          have hpmem : p ∈ fs := lookupFolder_mem fs pid p hl
          have hpid : p.id = pid := lookupFolder_id_of_some fs pid p hl
          have hlt : rank p.id < rank cur.id := hr cur hmem p hpmem (by rw [hp, hpid])
          exact isDescW_fuel fs rank hr f g p aid hpmem (by omega) (by omega)

theorem isDescW_ext (fs ext : List FolderRec)
    (hfresh : ∀ f ∈ fs, ∀ pid, f.parent = some pid → ∀ g ∈ ext, g.id ≠ pid) :
    ∀ (fuel : Nat) (cur : FolderRec) (aid : Str), cur ∈ fs →
      isDescendantFolderW (fs ++ ext) fuel cur aid = isDescendantFolderW fs fuel cur aid
  | 0, _, _, _ => rfl
  | fuel+1, cur, aid, hmem => by
    unfold isDescendantFolderW
    cases hp : cur.parent with
    | none => simp only [hp]
    | some pid =>
      simp only [hp]
      cases hl : lookupFolder fs pid with
      | none =>
        have hextnone : lookupFolder (fs ++ ext) pid = none := by
          unfold lookupFolder at hl ⊢
          rw [List.find?_append, hl, Option.none_or]
          apply List.find?_eq_none.mpr
          intro g hg
          simp [hfresh cur hmem pid hp g hg]
        simp only [hl, hextnone]
      | some p =>
        simp only [hl, lookupFolder_append_of_some fs ext pid p hl]
        by_cases hpa : (p.id == aid) = true
        · rw [if_pos hpa, if_pos hpa]
        · rw [if_neg hpa, if_neg hpa]
          exact isDescW_ext fs ext hfresh fuel p aid (lookupFolder_mem fs pid p hl)

theorem actorInScopeW_ext (fs ext : List FolderRec) (rank : Str → Nat)
    (hr : RankOKW fs rank) (hb : ∀ f ∈ fs, rank f.id < fs.length)
    (hfresh : ∀ f ∈ fs, ∀ pid, f.parent = some pid → ∀ g ∈ ext, g.id ≠ pid)
    (a : ActorRec) (hval : ∀ fid, a.folder = some fid → ∃ g ∈ fs, g.id = fid)
    (pid : Option Str) (inc : Bool) :
    actorInScopeW (fs ++ ext) a pid inc = actorInScopeW fs a pid inc := by
  unfold actorInScopeW
  cases pid with
  | none => rfl
  | some rootId =>
    cases haf : a.folder with
    | none =>
      cases inc <;> rfl
    | some fid =>
      obtain ⟨g, hg, hgid⟩ := hval fid haf
      obtain ⟨p, hp, hpid⟩ := lookupFolder_id fs fid g hg hgid
      have hp2 : lookupFolder (fs ++ ext) fid = some p := lookupFolder_append_of_some _ _ _ _ hp
      have hpm : p ∈ fs := lookupFolder_mem fs fid p hp
      have hwalk : isDescendantFolderW (fs ++ ext) (fs ++ ext).length p rootId =
          isDescendantFolderW fs fs.length p rootId := by
        rw [isDescW_ext fs ext hfresh _ p rootId hpm]
        have h1 := hb p hpm
        exact isDescW_fuel fs rank hr _ _ p rootId hpm
          (by rw [List.length_append]; omega) h1
      simp only [Option.bind, hp, hp2, hwalk]

theorem runEnsure_nogroup_eq (w : World) (cfg : Config) (hg : cfg.groupByType = false) :
    runEnsure w cfg =
      ((ensureLettersRow cfg.parentFolderId (strOfOpt none) cfg.groupByType w
          (lettersOf cfg (scopeActors w cfg)) []).1,
       ([] : List (Str × Str)),
       (ensureLettersRow cfg.parentFolderId (strOfOpt none) cfg.groupByType w
          (lettersOf cfg (scopeActors w cfg)) []).2) := by
  have hgne : ¬ cfg.groupByType = true := by
    rw [hg]
    exact Bool.false_ne_true
  have htp : typePartitions cfg (scopeActors w cfg) = [none] := by
    unfold typePartitions
    rw [if_neg hgne]
  have htf : ensureTypeFolders w cfg [none] = (w, []) := by
    unfold ensureTypeFolders
    rw [if_neg hgne]
  have hbase : (if cfg.groupByType then
      mapGet ([] : List (Str × Str)) (strOfOpt (none : Option Str))
    else cfg.parentFolderId) = cfg.parentFolderId := by
    rw [hg]
    rfl
  rw [runEnsure_eq, htp, htf, ensureLettersGo_cons, hbase, ensureLettersGo_nil]

theorem runEnsure_type_spec (w : World) (cfg : Config) (hg : cfg.groupByType = true)
    (t : Option Str) (ht : t ∈ typePartitions cfg (scopeActors w cfg)) :
    ∃ f, findChildFolder (runEnsure w cfg).1.folders (strOfOpt t) cfg.parentFolderId = some f ∧
      mapGet (runEnsure w cfg).2.1 (strOfOpt t) = some f.id := by
  have htf : ensureTypeFolders w cfg (typePartitions cfg (scopeActors w cfg)) =
      ensureTypesGo cfg.parentFolderId w (typePartitions cfg (scopeActors w cfg)) [] := by
    unfold ensureTypeFolders
    rw [if_pos hg]
  obtain ⟨spec, _⟩ := ensureTypesGo_spec cfg.parentFolderId
    (typePartitions cfg (scopeActors w cfg)) w []
    (nodup_typePartitions_keys cfg (scopeActors w cfg))
  obtain ⟨f, hf, hm⟩ := spec t ht
  rw [runEnsure_eq]
  refine ⟨f, ?_, ?_⟩
  · exact findChildFolder_stable (ensureLettersGo_worldExt _ _ _ _ _ _) _ _ _
      (by rw [htf]; exact hf)
  · show mapGet (ensureTypeFolders w cfg (typePartitions cfg (scopeActors w cfg))).2
      (strOfOpt t) = some f.id
    rw [htf]
    exact hm

theorem runEnsure_letter_spec (w : World) (cfg : Config)
    (t : Option Str) (ht : t ∈ typePartitions cfg (scopeActors w cfg))
    (l : Char) (hl : l ∈ lettersOf cfg (scopeActors w cfg)) :
    ∃ f, findChildFolder (runEnsure w cfg).1.folders [l]
        (if cfg.groupByType then mapGet (runEnsure w cfg).2.1 (strOfOpt t)
         else cfg.parentFolderId) = some f ∧
      mapGet (runEnsure w cfg).2.2 (bucketKey cfg.groupByType (strOfOpt t) l) = some f.id := by
  by_cases hg : cfg.groupByType = true
  · obtain ⟨spec, _⟩ := ensureLettersGo_spec_group cfg
      (ensureTypeFolders w cfg (typePartitions cfg (scopeActors w cfg))).2
      (lettersOf cfg (scopeActors w cfg)) hg (nodup_lettersOf cfg _)
      (typePartitions cfg (scopeActors w cfg))
      (ensureTypeFolders w cfg (typePartitions cfg (scopeActors w cfg))).1 []
      (nodup_typePartitions_keys cfg _)
    obtain ⟨f, hf, hm⟩ := spec t ht l hl
    rw [runEnsure_eq, hg]
    exact ⟨f, hf, hm⟩
  · have hgf : cfg.groupByType = false := Bool.eq_false_iff.mpr hg
    have htp : typePartitions cfg (scopeActors w cfg) = [none] := by
      unfold typePartitions
      rw [if_neg hg]
    have htn : t = none := by
      rw [htp] at ht
      simpa using ht
    subst htn
    obtain ⟨spec, _⟩ := ensureLettersRow_spec cfg.parentFolderId (strOfOpt none)
      cfg.groupByType (lettersOf cfg (scopeActors w cfg)) w [] (nodup_lettersOf cfg _)
    obtain ⟨f, hf, hm⟩ := spec l hl
    rw [runEnsure_nogroup_eq w cfg hgf, if_neg hg]
    exact ⟨f, hf, hm⟩

theorem runEnsure_allfound (w : World) (cfg : Config)
    (htypes : cfg.groupByType = true → ∀ t ∈ typePartitions cfg (scopeActors w cfg),
      findChildFolder w.folders (strOfOpt t) cfg.parentFolderId ≠ none)
    (hletters : ∀ t ∈ typePartitions cfg (scopeActors w cfg),
      ∀ l ∈ lettersOf cfg (scopeActors w cfg),
      findChildFolder w.folders [l]
        (if cfg.groupByType then
          mapGet (ensureTypeFolders w cfg (typePartitions cfg (scopeActors w cfg))).2 (strOfOpt t)
         else cfg.parentFolderId) ≠ none) :
    (runEnsure w cfg).1 = w := by
  by_cases hg : cfg.groupByType = true
  · have htf : ensureTypeFolders w cfg (typePartitions cfg (scopeActors w cfg)) =
        ensureTypesGo cfg.parentFolderId w (typePartitions cfg (scopeActors w cfg)) [] := by
      unfold ensureTypeFolders
      rw [if_pos hg]
    have hstate : (ensureTypeFolders w cfg (typePartitions cfg (scopeActors w cfg))).1 = w := by
      rw [htf]
      exact ensureTypesGo_state_of_allfound cfg.parentFolderId _ w [] (htypes hg)
    rw [runEnsure_eq]
    show (ensureLettersGo cfg
      (ensureTypeFolders w cfg (typePartitions cfg (scopeActors w cfg))).2
      (lettersOf cfg (scopeActors w cfg))
      (ensureTypeFolders w cfg (typePartitions cfg (scopeActors w cfg))).1
      (typePartitions cfg (scopeActors w cfg)) []).1 = w
    rw [hstate]
    exact ensureLettersGo_state_of_allfound cfg _ _ _ w [] hletters
  · have hgf : cfg.groupByType = false := Bool.eq_false_iff.mpr hg
    have htp : typePartitions cfg (scopeActors w cfg) = [none] := by
      unfold typePartitions
      rw [if_neg hg]
    rw [runEnsure_nogroup_eq w cfg hgf]
    apply ensureLettersRow_state_of_allfound
    intro l hl
    have := hletters none (by rw [htp]; exact List.mem_singleton.mpr rfl) l hl
    rw [if_neg hg] at this
    exact this

theorem actorUpdate_none_cases (folders : List FolderRec) (group : Bool)
    (lfi : List (Str × Str)) (a : ActorRec)
    (h : actorUpdate folders group lfi a = none) :
    normalizeLetter (some a.name) = none ∨
    ∃ l, normalizeLetter (some a.name) = some l ∧
      (mapGet lfi (bucketKey group a.atype l) = none ∨
       ∃ dest, mapGet lfi (bucketKey group a.atype l) = some dest ∧
         (dest = [] ∨
          ((a.folder.bind (lookupFolder folders)).map FolderRec.id) = some dest)) := by
  unfold actorUpdate at h
  split at h
  next hl => exact Or.inl hl
  next l hl =>
    refine Or.inr ⟨l, hl, ?_⟩
    split at h
    next hm => exact Or.inl hm
    next dest hm =>
      refine Or.inr ⟨dest, hm, ?_⟩
      split at h
      next hd => exact Or.inl (by simpa using hd)
      next hd =>
        split at h
        next hres => exact Or.inr (by simpa using hres)
        next hres => exact absurd h (by simp)

theorem typePartitions_nogroup (cfg : Config) (inScopeList : List ActorRec)
    (hg : cfg.groupByType = false) : typePartitions cfg inScopeList = [none] := by
  unfold typePartitions
  rw [if_neg (by rw [hg]; exact Bool.false_ne_true)]

theorem mem_typePartitions_inv_group (cfg : Config) (inScopeList : List ActorRec)
    (hg : cfg.groupByType = true) (t : Option Str) (ht : t ∈ typePartitions cfg inScopeList) :
    ∃ a ∈ inScopeList, t = some a.atype := by
  unfold typePartitions at ht
  rw [if_pos hg] at ht
  obtain ⟨τ, hτ, hts⟩ := List.mem_map.mp ht
  have hτ2 : τ ∈ dedupKeep (inScopeList.map ActorRec.atype) :=
    (perm_sortBy _ _).mem_iff.mp hτ
  have hτ3 : τ ∈ inScopeList.map ActorRec.atype := (mem_dedupKeep _ _).mp hτ2
  obtain ⟨a, ha, haτ⟩ := List.mem_map.mp hτ3
  exact ⟨a, ha, by rw [← hts, haτ]⟩

theorem mem_lettersOf_inv (cfg : Config) (inScopeList : List ActorRec)
    (hca : cfg.createAllLetters = false) (l : Char) (hl : l ∈ lettersOf cfg inScopeList) :
    ∃ a ∈ inScopeList, normalizeLetter (some a.name) = some l := by
  unfold lettersOf at hl
  rw [if_neg (by rw [hca]; exact Bool.false_ne_true)] at hl
  have hl2 : l ∈ dedupKeep (inScopeList.filterMap (fun a => normalizeLetter (some a.name))) :=
    (perm_sortBy _ _).mem_iff.mp hl
  have hl3 : l ∈ inScopeList.filterMap (fun a => normalizeLetter (some a.name)) :=
    (mem_dedupKeep _ _).mp hl2
  exact List.mem_filterMap.mp hl3

theorem runEnsure_ids_ok (w : World) (cfg : Config) (rank : Str → Nat) (hwf : WorldWF w rank) :
    ∀ f ∈ (runEnsure w cfg).1.folders, f.id ≠ [] := by
  obtain ⟨_, _, ext, hfold, hextp⟩ := runEnsure_worldExt w cfg
  rw [hfold]
  intro f hf
  rcases List.mem_append.mp hf with h | h
  · exact hwf.2.2.1 f h
  · obtain ⟨_, n, _, hid⟩ := hextp f h
    rw [hid]
    exact genId_ne_nil n

theorem scope2_origin (w : World) (cfg : Config) (rank : Str → Nat)
    (hwf : WorldWF w rank) (hrb : ∀ f ∈ w.folders, rank f.id < w.folders.length)
    (w1 : World)
    (hfolders : w1.folders = (runEnsure w cfg).1.folders)
    (hactors : w1.actors = applyUpdates w.actors
      (buildUpdatesGo (runEnsure w cfg).1.folders cfg.groupByType
        (runEnsure w cfg).2.2 (scopeActors w cfg) [])) :
    ∀ a2 ∈ scopeActors w1 cfg, ∃ a ∈ scopeActors w cfg,
      a2.name = a.name ∧ a2.atype = a.atype ∧
      ((a2 = a ∧ actorUpdate (runEnsure w cfg).1.folders cfg.groupByType
          (runEnsure w cfg).2.2 a = none) ∨
       (∃ d, a2 = { a with folder := some d } ∧
          actorUpdate (runEnsure w cfg).1.folders cfg.groupByType
            (runEnsure w cfg).2.2 a = some (a.id, d))) := by
  intro a2 ha2
  unfold scopeActors at ha2
  obtain ⟨hwa, hin⟩ := List.mem_filter.mp ha2
  rw [hactors] at hwa
  unfold applyUpdates at hwa
  obtain ⟨a, haw, hstep⟩ := List.mem_map.mp hwa
  rw [buildUpdatesGo_eq_filterMap, List.nil_append] at hstep
  have hinj : ∀ b ∈ scopeActors w cfg, b.id = a.id → b = a := by
    intro b hb hid
    exact actorId_inj hwf.1 (List.mem_filter.mp (by unfold scopeActors at hb; exact hb)).1
      haw hid
  rw [updates_find _ _ _ _ a hinj] at hstep
  by_cases hmem : a ∈ scopeActors w cfg
  · rw [if_pos hmem] at hstep
    cases hu : actorUpdate (runEnsure w cfg).1.folders cfg.groupByType
        (runEnsure w cfg).2.2 a with
    | none =>
      rw [hu] at hstep
      exact ⟨a, hmem, by rw [← hstep], by rw [← hstep], Or.inl ⟨hstep.symm, hu⟩⟩
    | some u =>
      rw [hu] at hstep
      obtain ⟨l, d, huu, _, _, _, _⟩ := actorUpdate_shape _ _ _ a u hu
      subst huu
      refine ⟨a, hmem, by rw [← hstep], by rw [← hstep], Or.inr ⟨d, hstep.symm, hu⟩⟩
  · rw [if_neg hmem] at hstep
    obtain ⟨hact, hnext, ext, hfold, hextp⟩ := runEnsure_worldExt w cfg
    have hfresh : ∀ f ∈ w.folders, ∀ pid, f.parent = some pid → ∀ g ∈ ext, g.id ≠ pid := by
      intro f hf pid hp g hg
      obtain ⟨_, n, hn, hid⟩ := hextp g hg
      rw [hid]
      exact fun he => hwf.2.2.2.2.1 f hf pid hp n hn he.symm
    have hval : ∀ fid, a.folder = some fid → ∃ g ∈ w.folders, g.id = fid :=
      fun fid hfid => hwf.2.2.2.2.2.1 a haw fid hfid
    have hstab := actorInScopeW_ext w.folders ext rank hwf.2.2.2.2.2.2 hrb hfresh a hval
      cfg.parentFolderId cfg.includeSubfolders
    rw [hfolders, hfold, ← hstep] at hin
    rw [hstab] at hin
    have : a ∈ scopeActors w cfg := by
      unfold scopeActors
      exact List.mem_filter.mpr ⟨haw, hin⟩
    exact absurd this hmem

theorem actorUpdate_eq_none_noletter (folders : List FolderRec) (group : Bool)
    (lfi : List (Str × Str)) (a : ActorRec)
    (hn : normalizeLetter (some a.name) = none) :
    actorUpdate folders group lfi a = none := by
  unfold actorUpdate
  split
  next => rfl
  next l heq =>
    rw [hn] at heq
    exact absurd heq (by simp)

theorem actorUpdate_eq_none_of (folders : List FolderRec) (group : Bool)
    (lfi : List (Str × Str)) (a : ActorRec) (l : Char) (dest : Str)
    (hn : normalizeLetter (some a.name) = some l)
    (hm : mapGet lfi (bucketKey group a.atype l) = some dest)
    (hsk : dest = [] ∨ (a.folder.bind (lookupFolder folders)).map FolderRec.id = some dest) :
    actorUpdate folders group lfi a = none := by
  unfold actorUpdate
  split
  next => rfl
  next l2 heq =>
    rw [hn] at heq
    have hl : l = l2 := Option.some_inj.mp heq
    subst hl
    split
    next => rfl
    next dest2 heq2 =>
      rw [hm] at heq2
      have hd : dest = dest2 := Option.some_inj.mp heq2
      subst hd
      by_cases hdnil : (dest == ([] : Str)) = true
      · rw [if_pos hdnil]
      · rw [if_neg hdnil]
        rcases hsk with hnil | hres
        · exact absurd (by simp [hnil]) hdnil
        · rw [if_pos (by simp [hres])]

theorem run2_fixed (w : World) (cfg : Config) (rank : Str → Nat)
    (hwf : WorldWF w rank) (hrb : ∀ f ∈ w.folders, rank f.id < w.folders.length)
    (w1 : World)
    (hfolders : w1.folders = (runEnsure w cfg).1.folders)
    (hactors : w1.actors = applyUpdates w.actors
      (buildUpdatesGo (runEnsure w cfg).1.folders cfg.groupByType
        (runEnsure w cfg).2.2 (scopeActors w cfg) [])) :
    (runAlphabetizer w1 cfg).1 = w1 ∧ movedCount (runAlphabetizer w1 cfg).2 = 0 := by
  have horigin := scope2_origin w cfg rank hwf hrb w1 hfolders hactors
  have htype_cov : ∀ t ∈ typePartitions cfg (scopeActors w1 cfg),
      t ∈ typePartitions cfg (scopeActors w cfg) := by
    intro t ht
    by_cases hg : cfg.groupByType = true
    · obtain ⟨a2, ha2, hta⟩ := mem_typePartitions_inv_group cfg _ hg t ht
      obtain ⟨a, ha, _, hatype, _⟩ := horigin a2 ha2
      rw [hta, hatype]
      exact mem_typePartitions cfg _ a ha hg
    · have hgf : cfg.groupByType = false := Bool.eq_false_iff.mpr hg
      rw [typePartitions_nogroup cfg _ hgf] at ht ⊢
      exact ht
  have hlet_cov : ∀ l ∈ lettersOf cfg (scopeActors w1 cfg),
      l ∈ lettersOf cfg (scopeActors w cfg) := by
    intro l hl
    by_cases hca : cfg.createAllLetters = true
    · unfold lettersOf at hl ⊢
      rw [if_pos hca] at hl ⊢
      exact hl
    · obtain ⟨a2, ha2, hna⟩ := mem_lettersOf_inv cfg _ (Bool.eq_false_iff.mpr hca) l hl
      obtain ⟨a, ha, hname, _, _⟩ := horigin a2 ha2
      rw [hname] at hna
      exact mem_lettersOf cfg _ a l ha hna
  have htypes2 : cfg.groupByType = true → ∀ t ∈ typePartitions cfg (scopeActors w1 cfg),
      findChildFolder w1.folders (strOfOpt t) cfg.parentFolderId ≠ none := by
    intro hg t ht
    obtain ⟨f, hf, _⟩ := runEnsure_type_spec w cfg hg t (htype_cov t ht)
    rw [hfolders, hf]
    simp
  have htfi2 : cfg.groupByType = true → ∀ t ∈ typePartitions cfg (scopeActors w1 cfg),
      mapGet (ensureTypeFolders w1 cfg (typePartitions cfg (scopeActors w1 cfg))).2
        (strOfOpt t) = mapGet (runEnsure w cfg).2.1 (strOfOpt t) := by
    intro hg t ht
    have htf : ensureTypeFolders w1 cfg (typePartitions cfg (scopeActors w1 cfg)) =
        ensureTypesGo cfg.parentFolderId w1 (typePartitions cfg (scopeActors w1 cfg)) [] := by
      unfold ensureTypeFolders
      rw [if_pos hg]
    have hstate : (ensureTypesGo cfg.parentFolderId w1
        (typePartitions cfg (scopeActors w1 cfg)) []).1 = w1 :=
      ensureTypesGo_state_of_allfound _ _ _ _ (fun t2 ht2 => htypes2 hg t2 ht2)
    obtain ⟨spec, _⟩ := ensureTypesGo_spec cfg.parentFolderId
      (typePartitions cfg (scopeActors w1 cfg)) w1 [] (nodup_typePartitions_keys cfg _)
    obtain ⟨f2, hf2, hm2⟩ := spec t ht
    rw [hstate, hfolders] at hf2
    obtain ⟨f1, hf1, hm1⟩ := runEnsure_type_spec w cfg hg t (htype_cov t ht)
    rw [hf1] at hf2
    have hff : f1 = f2 := Option.some_inj.mp hf2
    rw [htf, hm2, hm1, hff]
  have hletters2 : ∀ t ∈ typePartitions cfg (scopeActors w1 cfg),
      ∀ l ∈ lettersOf cfg (scopeActors w1 cfg),
      findChildFolder w1.folders [l]
        (if cfg.groupByType then
          mapGet (ensureTypeFolders w1 cfg (typePartitions cfg (scopeActors w1 cfg))).2
            (strOfOpt t)
         else cfg.parentFolderId) ≠ none := by
    intro t ht l hl
    obtain ⟨f, hf, _⟩ := runEnsure_letter_spec w cfg t (htype_cov t ht) l (hlet_cov l hl)
    by_cases hg : cfg.groupByType = true
    · rw [if_pos hg, htfi2 hg t ht, hfolders]
      rw [if_pos hg] at hf
      rw [hf]
      simp
    · rw [if_neg hg, hfolders]
      rw [if_neg hg] at hf
      rw [hf]
      simp
  have hrun2state : (runEnsure w1 cfg).1 = w1 := runEnsure_allfound w1 cfg htypes2 hletters2
  have hlfi2 : ∀ t ∈ typePartitions cfg (scopeActors w1 cfg),
      ∀ l ∈ lettersOf cfg (scopeActors w1 cfg),
      ∃ f1, f1 ∈ (runEnsure w cfg).1.folders ∧
        mapGet (runEnsure w cfg).2.2 (bucketKey cfg.groupByType (strOfOpt t) l) = some f1.id ∧
        mapGet (runEnsure w1 cfg).2.2 (bucketKey cfg.groupByType (strOfOpt t) l) = some f1.id := by
    intro t ht l hl
    obtain ⟨f2, hf2, hm2⟩ := runEnsure_letter_spec w1 cfg t ht l hl
    obtain ⟨f1, hf1, hm1⟩ := runEnsure_letter_spec w cfg t (htype_cov t ht) l (hlet_cov l hl)
    rw [hrun2state] at hf2
    by_cases hg : cfg.groupByType = true
    · rw [if_pos hg] at hf2 hf1
      have hbase : mapGet (runEnsure w1 cfg).2.1 (strOfOpt t) =
          mapGet (runEnsure w cfg).2.1 (strOfOpt t) := by
        show mapGet (ensureTypeFolders w1 cfg (typePartitions cfg (scopeActors w1 cfg))).2
          (strOfOpt t) = mapGet (runEnsure w cfg).2.1 (strOfOpt t)
        exact htfi2 hg t ht
      rw [hbase, hfolders, hf1] at hf2
      have hff : f1 = f2 := Option.some_inj.mp hf2
      exact ⟨f1, findChildFolder_mem _ _ _ _ hf1, hm1, by rw [hm2, hff]⟩
    · rw [if_neg hg] at hf2 hf1
      rw [hfolders, hf1] at hf2
      have hff : f1 = f2 := Option.some_inj.mp hf2
      exact ⟨f1, findChildFolder_mem _ _ _ _ hf1, hm1, by rw [hm2, hff]⟩
  have hkey : ∀ a2 ∈ scopeActors w1 cfg, ∀ l, normalizeLetter (some a2.name) = some l →
      ∃ f1, f1 ∈ (runEnsure w cfg).1.folders ∧
        mapGet (runEnsure w cfg).2.2 (bucketKey cfg.groupByType a2.atype l) = some f1.id ∧
        mapGet (runEnsure w1 cfg).2.2 (bucketKey cfg.groupByType a2.atype l) = some f1.id := by
    intro a2 ha2 l hn2
    have hlL2 : l ∈ lettersOf cfg (scopeActors w1 cfg) := mem_lettersOf cfg _ a2 l ha2 hn2
    by_cases hg : cfg.groupByType = true
    · exact hlfi2 (some a2.atype) (mem_typePartitions cfg _ a2 ha2 hg) l hlL2
    · have hgf : cfg.groupByType = false := Bool.eq_false_iff.mpr hg
      have htT2 : (none : Option Str) ∈ typePartitions cfg (scopeActors w1 cfg) := by
        rw [typePartitions_nogroup cfg _ hgf]
        exact List.mem_singleton.mpr rfl
      obtain ⟨f1, hf1m, hm1, hm2⟩ := hlfi2 none htT2 l hlL2
      rw [hgf] at hm1 hm2 ⊢
      rw [bucketKey_group_false a2.atype (strOfOpt none) l]
      exact ⟨f1, hf1m, hm1, hm2⟩
  have hskip : ∀ a2 ∈ scopeActors w1 cfg,
      actorUpdate (runEnsure w1 cfg).1.folders cfg.groupByType
        (runEnsure w1 cfg).2.2 a2 = none := by
    intro a2 ha2
    obtain ⟨a, haS, hname, hatype, hcase⟩ := horigin a2 ha2
    cases hn2 : normalizeLetter (some a2.name) with
    | none => exact actorUpdate_eq_none_noletter _ _ _ a2 hn2
    | some l =>
      obtain ⟨f1, hf1mem, hmW, hmW1⟩ := hkey a2 ha2 l hn2
      have hnA : normalizeLetter (some a.name) = some l := by
        rw [← hname]
        exact hn2
      have hkeyA : bucketKey cfg.groupByType a.atype l = bucketKey cfg.groupByType a2.atype l := by
        rw [hatype]
      have hF2 : (runEnsure w1 cfg).1.folders = (runEnsure w cfg).1.folders := by
        rw [hrun2state, hfolders]
      apply actorUpdate_eq_none_of _ _ _ a2 l f1.id hn2 hmW1
      rw [hF2]
      rcases hcase with ⟨heq, hupd⟩ | ⟨d, heq, hupd⟩
      · rcases actorUpdate_none_cases _ _ _ a hupd with hln | ⟨l2, hl2, hrest⟩
        · rw [hnA] at hln
          exact absurd hln (by simp)
        · rw [hnA] at hl2
          have hll : l = l2 := Option.some_inj.mp hl2
          subst hll
          rcases hrest with hmn | ⟨dest, hmd, hsk2⟩
          · rw [hkeyA, hmW] at hmn
            exact absurd hmn (by simp)
          · rw [hkeyA, hmW] at hmd
            have hdd : f1.id = dest := Option.some_inj.mp hmd
            rcases hsk2 with hnil | hres
            · exact Or.inl (by rw [hdd]; exact hnil)
            · refine Or.inr ?_
              rw [heq, hdd]
              exact hres
      · obtain ⟨l3, d3, hu3, hn3, hm3, _, _⟩ := actorUpdate_shape _ _ _ a _ hupd
        have hd3 : d = d3 := by
          have := congrArg Prod.snd hu3
          simpa using this
        have hl3 : l = l3 := by
          rw [hnA] at hn3
          exact Option.some_inj.mp hn3
        have hdd : d = f1.id := by
          rw [← hl3] at hm3
          rw [hkeyA, hmW] at hm3
          rw [hd3]
          exact (Option.some_inj.mp hm3).symm
        refine Or.inr ?_
        rw [heq, hdd]
        obtain ⟨p, hp, hpid⟩ := lookupFolder_id (runEnsure w cfg).1.folders f1.id f1 hf1mem rfl
        show (lookupFolder (runEnsure w cfg).1.folders f1.id).map FolderRec.id = some f1.id
        rw [hp]
        simp [hpid]
  have hupd2 : buildUpdatesGo (runEnsure w1 cfg).1.folders cfg.groupByType
      (runEnsure w1 cfg).2.2 (scopeActors w1 cfg) [] = [] := by
    rw [buildUpdatesGo_eq_filterMap, List.nil_append]
    exact List.filterMap_eq_nil_iff.mpr hskip
  rw [runAlphabetizer_eq w1 cfg]
  by_cases hS2 : (scopeActors w1 cfg).isEmpty = true
  · rw [if_pos hS2]
    exact ⟨rfl, rfl⟩
  · rw [if_neg hS2]
    by_cases hL2 : (lettersOf cfg (scopeActors w1 cfg)).isEmpty = true
    · rw [if_pos hL2]
      exact ⟨rfl, rfl⟩
    · rw [if_neg hL2]
      rw [hupd2]
      rw [if_pos (show ([] : List (Str × Str)).isEmpty = true from rfl)]
      exact ⟨hrun2state, rfl⟩

/-- C1: with the host invariants (distinct ids, fresh-id discipline, valid
folder references, an acyclic folder tree with a length-bounded rank),
running the alphabetizer a second time with the same configuration on the
world the first run produced reassigns nothing, creates no folder, and
returns the first-run world unchanged. -/
theorem runAlphabetizer_idempotent (w : World) (cfg : Config) (rank : Str → Nat)
    (hwf : WorldWF w rank) (hrb : ∀ f ∈ w.folders, rank f.id < w.folders.length) :
    (runAlphabetizer (runAlphabetizer w cfg).1 cfg).1 = (runAlphabetizer w cfg).1 ∧
    movedCount (runAlphabetizer (runAlphabetizer w cfg).1 cfg).2 = 0 ∧
    (runAlphabetizer (runAlphabetizer w cfg).1 cfg).1.folders.length =
      (runAlphabetizer w cfg).1.folders.length := by
  by_cases hS : (scopeActors w cfg).isEmpty = true
  · have h1 : runAlphabetizer w cfg = (w, RunResult.emptyScope) := by
      rw [runAlphabetizer_eq w cfg, if_pos hS]
    rw [h1]
    show (runAlphabetizer w cfg).1 = w ∧ movedCount (runAlphabetizer w cfg).2 = 0 ∧
      (runAlphabetizer w cfg).1.folders.length = w.folders.length
    rw [h1]
    exact ⟨rfl, rfl, rfl⟩
  · by_cases hL : (lettersOf cfg (scopeActors w cfg)).isEmpty = true
    · have h1 : runAlphabetizer w cfg = (w, RunResult.noUsableLetters) := by
        rw [runAlphabetizer_eq w cfg, if_neg hS, if_pos hL]
      rw [h1]
      show (runAlphabetizer w cfg).1 = w ∧ movedCount (runAlphabetizer w cfg).2 = 0 ∧
        (runAlphabetizer w cfg).1.folders.length = w.folders.length
      rw [h1]
      exact ⟨rfl, rfl, rfl⟩
    · obtain ⟨hact, _, _, _, _⟩ := runEnsure_worldExt w cfg
      have h1 : (runAlphabetizer w cfg).1 = World.mk (runEnsure w cfg).1.folders
          (applyUpdates w.actors (buildUpdatesGo (runEnsure w cfg).1.folders cfg.groupByType
            (runEnsure w cfg).2.2 (scopeActors w cfg) [])) (runEnsure w cfg).1.nextId := by
        rw [runAlphabetizer_eq w cfg, if_neg hS, if_neg hL]
        by_cases hU : (buildUpdatesGo (runEnsure w cfg).1.folders cfg.groupByType
            (runEnsure w cfg).2.2 (scopeActors w cfg) []).isEmpty = true
        · rw [if_pos hU]
          have hUe : buildUpdatesGo (runEnsure w cfg).1.folders cfg.groupByType
              (runEnsure w cfg).2.2 (scopeActors w cfg) [] = [] := List.isEmpty_iff.mp hU
          show (runEnsure w cfg).1 = _
          rw [hUe, applyUpdates_nil, ← hact]
        · rw [if_neg hU]
          show World.mk (runEnsure w cfg).1.folders
            (applyUpdates (runEnsure w cfg).1.actors
              (buildUpdatesGo (runEnsure w cfg).1.folders cfg.groupByType
                (runEnsure w cfg).2.2 (scopeActors w cfg) []))
            (runEnsure w cfg).1.nextId = _
          rw [hact]
      obtain ⟨hfix1, hfix2⟩ := run2_fixed w cfg rank hwf hrb
        (World.mk (runEnsure w cfg).1.folders
          (applyUpdates w.actors (buildUpdatesGo (runEnsure w cfg).1.folders cfg.groupByType
            (runEnsure w cfg).2.2 (scopeActors w cfg) [])) (runEnsure w cfg).1.nextId)
        rfl rfl
      rw [h1]
      exact ⟨hfix1, hfix2, by rw [hfix1]⟩

def exActorC1 : ActorRec :=
  { id := ("a1").data, name := ("Bob").data, atype := ("npc").data, folder := none }

def exWorldC1 : World := { folders := [], actors := [exActorC1], nextId := 0 }

def exCfgC1 : Config :=
  { createAllLetters := false, groupByType := false,
    parentFolderId := none, includeSubfolders := false }

theorem runAlphabetizer_idempotent_witness :
    (WorldWF exWorldC1 (fun _ => 0) ∧
     (∀ f ∈ exWorldC1.folders, (fun _ => (0 : Nat)) f.id < exWorldC1.folders.length)) ∧
    ((runAlphabetizer (runAlphabetizer exWorldC1 exCfgC1).1 exCfgC1).1 =
       (runAlphabetizer exWorldC1 exCfgC1).1 ∧
     movedCount (runAlphabetizer (runAlphabetizer exWorldC1 exCfgC1).1 exCfgC1).2 = 0 ∧
     (runAlphabetizer (runAlphabetizer exWorldC1 exCfgC1).1 exCfgC1).1.folders.length =
       (runAlphabetizer exWorldC1 exCfgC1).1.folders.length) := by
  have hwf : WorldWF exWorldC1 (fun _ => 0) := by
    refine ⟨by decide, by decide, ?_, ?_, ?_, ?_, ?_⟩ <;>
      simp [exWorldC1, exActorC1, RankOKW]
  have hrb : ∀ f ∈ exWorldC1.folders, (fun _ => (0 : Nat)) f.id < exWorldC1.folders.length := by
    simp [exWorldC1]
  exact ⟨⟨hwf, hrb⟩, runAlphabetizer_idempotent exWorldC1 exCfgC1 (fun _ => 0) hwf hrb⟩

theorem folderId_inj {fs : List FolderRec} (hnd : (fs.map FolderRec.id).Nodup)
    {a b : FolderRec} (ha : a ∈ fs) (hb : b ∈ fs) (h : a.id = b.id) : a = b :=
  List.inj_on_of_nodup_map hnd ha hb h

theorem ensureFolder_idsOK (w : World) (name : Str) (pid : Option Str) (h : IdsOK w) :
    IdsOK (ensureFolder w name pid).1 := by
  unfold ensureFolder
  cases hf : findChildFolder w.folders name pid with
  | some f => exact h
  | none =>
    constructor
    · show ((w.folders ++ [madeFolder name pid w.nextId]).map FolderRec.id).Nodup
      rw [List.map_append, List.nodup_append]
      refine ⟨h.1, by simp, ?_⟩
      intro x hx hx2
      obtain ⟨g, hg, hgx⟩ := List.mem_map.mp hx
      have hxg : x = genId w.nextId := by simpa [madeFolder] using hx2
      exact h.2 g hg w.nextId (Nat.le_refl _) (by rw [hgx, hxg])
    · show ∀ f ∈ w.folders ++ [madeFolder name pid w.nextId],
        ∀ n, w.nextId + 1 ≤ n → f.id ≠ genId n
      intro f hf2 n hn
      rcases List.mem_append.mp hf2 with hmw | hmx
      · exact h.2 f hmw n (Nat.le_of_succ_le hn)
      · rw [List.mem_singleton] at hmx
        subst hmx
        show genId w.nextId ≠ genId n
        intro hEq
        have := genId_inj hEq
        omega

theorem ensureTypesGo_idsOK (parent : Option Str) :
    ∀ (ts : List (Option Str)) (w : World) (m : List (Str × Str)),
      IdsOK w → IdsOK (ensureTypesGo parent w ts m).1
  | [], _, _, h => h
  | t :: ts, w, m, h => by
    rw [ensureTypesGo_cons]
    exact ensureTypesGo_idsOK parent ts _ _ (ensureFolder_idsOK w _ _ h)

theorem ensureTypesGo_ext (parent : Option Str) :
    ∀ (ts : List (Option Str)) (w : World) (m : List (Str × Str)),
      ∃ ext, (ensureTypesGo parent w ts m).1.folders = w.folders ++ ext ∧
        ∀ g ∈ ext, g.parent = parent ∧ ∃ n, w.nextId ≤ n ∧ g.id = genId n
  | [], w, m => ⟨[], by simp [ensureTypesGo], by simp⟩
  | t :: ts, w, m => by
    rw [ensureTypesGo_cons]
    obtain ⟨e1, he1, _, hnext, hprops1⟩ := ensureFolder_state w (strOfOpt t) parent
    obtain ⟨e2, he2, hprops2⟩ := ensureTypesGo_ext parent ts (ensureFolder w (strOfOpt t) parent).1
      (mapSet m (strOfOpt t) (ensureFolder w (strOfOpt t) parent).2)
    refine ⟨e1 ++ e2, ?_, ?_⟩
    · rw [he2, he1, List.append_assoc]
    · intro g hg
      rcases List.mem_append.mp hg with hg1 | hg2
      · obtain ⟨_, _, hpar, n, hn1, _, hid⟩ := hprops1 g hg1
        exact ⟨hpar, n, hn1, hid⟩
      · obtain ⟨hpar, n, hn2, hid⟩ := hprops2 g hg2
        exact ⟨hpar, n, Nat.le_trans hnext hn2, hid⟩

theorem ensureLettersRow_ext (base : Option Str) (tstr : Str) (group : Bool) :
    ∀ (ls : List Char) (w : World) (m : List (Str × Str)),
      ∃ ext, (ensureLettersRow base tstr group w ls m).1.folders = w.folders ++ ext ∧
        ∀ g ∈ ext, g.parent = base ∧ ∃ n, w.nextId ≤ n ∧ g.id = genId n
  | [], w, m => ⟨[], by simp [ensureLettersRow], by simp⟩
  | l :: ls, w, m => by
    rw [ensureLettersRow_cons]
    obtain ⟨e1, he1, _, hnext, hprops1⟩ := ensureFolder_state w [l] base
    obtain ⟨e2, he2, hprops2⟩ := ensureLettersRow_ext base tstr group ls
      (ensureFolder w [l] base).1
      (mapSet m (bucketKey group tstr l) (ensureFolder w [l] base).2)
    refine ⟨e1 ++ e2, ?_, ?_⟩
    · rw [he2, he1, List.append_assoc]
    · intro g hg
      rcases List.mem_append.mp hg with hg1 | hg2
      · obtain ⟨_, _, hpar, n, hn1, _, hid⟩ := hprops1 g hg1
        exact ⟨hpar, n, hn1, hid⟩
      · obtain ⟨hpar, n, hn2, hid⟩ := hprops2 g hg2
        exact ⟨hpar, n, Nat.le_trans hnext hn2, hid⟩

theorem ensureLettersGo_ext (cfg : Config) (tfi : List (Str × Str)) (letters : List Char) :
    ∀ (ts : List (Option Str)) (w : World) (m : List (Str × Str)),
      ∃ ext, (ensureLettersGo cfg tfi letters w ts m).1.folders = w.folders ++ ext ∧
        ∀ g ∈ ext, ∃ t2 ∈ ts, g.parent =
          (if cfg.groupByType then mapGet tfi (strOfOpt t2) else cfg.parentFolderId)
  | [], w, m => ⟨[], by simp [ensureLettersGo], by simp⟩
  | t :: ts, w, m => by
    rw [ensureLettersGo_cons]
    obtain ⟨e1, he1, hp1⟩ := ensureLettersRow_ext
      (if cfg.groupByType then mapGet tfi (strOfOpt t) else cfg.parentFolderId)
      (strOfOpt t) cfg.groupByType letters w m
    obtain ⟨e2, he2, hp2⟩ := ensureLettersGo_ext cfg tfi letters ts
      (ensureLettersRow (if cfg.groupByType then mapGet tfi (strOfOpt t) else cfg.parentFolderId)
        (strOfOpt t) cfg.groupByType w letters m).1
      (ensureLettersRow (if cfg.groupByType then mapGet tfi (strOfOpt t) else cfg.parentFolderId)
        (strOfOpt t) cfg.groupByType w letters m).2
    refine ⟨e1 ++ e2, ?_, ?_⟩
    · rw [he2, he1, List.append_assoc]
    · intro g hg
      rcases List.mem_append.mp hg with hg1 | hg2
      · exact ⟨t, List.mem_cons_self _ _, (hp1 g hg1).1⟩
      · obtain ⟨t2, ht2, hpar⟩ := hp2 g hg2
        exact ⟨t2, List.mem_cons_of_mem _ ht2, hpar⟩

theorem findChildFolder_append_parent_ne (fs ext : List FolderRec) (name : Str)
    (pid : Option Str) (h : ∀ g ∈ ext, g.parent ≠ pid) :
    findChildFolder (fs ++ ext) name pid = findChildFolder fs name pid := by
  unfold findChildFolder
  rw [List.find?_append]
  have hnone : ext.find? (fun f =>
      f.ftype == actorTypeTag && f.name == name &&
      (match pid with
       | none => f.parent == none
       | some p => f.parent == some p)) = none := by
    apply List.find?_eq_none.mpr
    intro g hg
    have hgp := h g hg
    cases pid with
    | none =>
      have hb : (g.parent == (none : Option Str)) = false := by simpa using hgp
      simp [hb]
    | some p =>
      have hb : (g.parent == some p) = false := by simpa using hgp
      simp [hb]
  rw [hnone, Option.or_none]

theorem filter_parent_append (fs ext : List FolderRec) (B : Option Str)
    (h : ∀ g ∈ ext, g.parent ≠ B) :
    ((fs ++ ext).filter (fun f => f.parent == B)).length =
    (fs.filter (fun f => f.parent == B)).length := by
  rw [List.filter_append]
  have hz : ext.filter (fun f => f.parent == B) = [] :=
    List.filter_eq_nil_iff.mpr (fun g hg => by simpa using h g hg)
  rw [hz, List.append_nil]

theorem filter_parent_all (ext : List FolderRec) (B : Option Str)
    (h : ∀ g ∈ ext, g.parent = B) :
    ext.filter (fun f => f.parent == B) = ext :=
  List.filter_eq_self.mpr (fun g hg => by simp [h g hg])

theorem preexist_append (fs ext : List FolderRec) (B : Option Str) (letters : List Char)
    (h : ∀ g ∈ ext, g.parent ≠ B) :
    letters.filter (fun l => (findChildFolder (fs ++ ext) [l] B).isSome) =
    letters.filter (fun l => (findChildFolder fs [l] B).isSome) :=
  List.filter_congr (fun l _ => by rw [findChildFolder_append_parent_ne fs ext [l] B h])

theorem ensureLettersRow_filter_count (base : Option Str) (tstr : Str) (group : Bool)
    (ls : List Char) (w : World) (m : List (Str × Str)) (hnd : ls.Nodup) :
    ((ensureLettersRow base tstr group w ls m).1.folders.filter
        (fun f => f.parent == base)).length +
      (ls.filter (fun l => (findChildFolder w.folders [l] base).isSome)).length =
    (w.folders.filter (fun f => f.parent == base)).length + ls.length := by
  obtain ⟨ext, hfold, hprops⟩ := ensureLettersRow_ext base tstr group ls w m
  have hcount := ensureLettersRow_count base tstr group ls w m hnd
  rw [hfold] at hcount ⊢
  rw [List.filter_append, filter_parent_all ext base (fun g hg => (hprops g hg).1)]
  simp only [List.length_append] at hcount ⊢
  omega

theorem ensureLettersGo_filter_count (cfg : Config) (tfi : List (Str × Str))
    (letters : List Char) (hletters : letters.Nodup) (B : Option Str) :
    ∀ (ts : List (Option Str)) (w : World) (m : List (Str × Str)),
      (ts.map strOfOpt).Nodup →
      ∀ t ∈ ts,
      (if cfg.groupByType then mapGet tfi (strOfOpt t) else cfg.parentFolderId) = B →
      (∀ t2 ∈ ts, strOfOpt t2 ≠ strOfOpt t →
        (if cfg.groupByType then mapGet tfi (strOfOpt t2) else cfg.parentFolderId) ≠ B) →
      ((ensureLettersGo cfg tfi letters w ts m).1.folders.filter
          (fun f => f.parent == B)).length +
        (letters.filter (fun l => (findChildFolder w.folders [l] B).isSome)).length =
      (w.folders.filter (fun f => f.parent == B)).length + letters.length
  | [], _, _, _, t, ht, _, _ => absurd ht (List.not_mem_nil t)
  | t1 :: ts, w, m, hnd, t, ht, hB, hneq => by
    rw [ensureLettersGo_cons]
    have hnd2 : (strOfOpt t1 :: ts.map strOfOpt).Nodup := by simpa using hnd
    have hnd' : (ts.map strOfOpt).Nodup := (List.nodup_cons.mp hnd2).2
    have hnotin : strOfOpt t1 ∉ ts.map strOfOpt := (List.nodup_cons.mp hnd2).1
    by_cases hkey : strOfOpt t1 = strOfOpt t
    · have hbase1 : (if cfg.groupByType then mapGet tfi (strOfOpt t1) else cfg.parentFolderId)
          = B := by
        rw [hkey]
        exact hB
      rw [hbase1]
      obtain ⟨ext2, hfold2, hp2⟩ := ensureLettersGo_ext cfg tfi letters ts
        (ensureLettersRow B (strOfOpt t1) cfg.groupByType w letters m).1
        (ensureLettersRow B (strOfOpt t1) cfg.groupByType w letters m).2
      have hpar2 : ∀ g ∈ ext2, g.parent ≠ B := by
        intro g hg
        obtain ⟨t2, ht2, hpar⟩ := hp2 g hg
        rw [hpar]
        refine hneq t2 (List.mem_cons_of_mem _ ht2) ?_
        intro hk2
        apply hnotin
        have hmm : strOfOpt t2 ∈ ts.map strOfOpt := List.mem_map_of_mem _ ht2
        rw [hk2, ← hkey] at hmm
        exact hmm
      have hstab : ((ensureLettersGo cfg tfi letters
          (ensureLettersRow B (strOfOpt t1) cfg.groupByType w letters m).1 ts
          (ensureLettersRow B (strOfOpt t1) cfg.groupByType w letters m).2).1.folders.filter
            (fun f => f.parent == B)).length =
          ((ensureLettersRow B (strOfOpt t1) cfg.groupByType w letters m).1.folders.filter
            (fun f => f.parent == B)).length := by
        rw [hfold2]
        exact filter_parent_append _ _ _ hpar2
      rw [hstab]
      exact ensureLettersRow_filter_count B (strOfOpt t1) cfg.groupByType letters w m hletters
    · have ht' : t ∈ ts := by
        rcases List.mem_cons.mp ht with h | h
        · exact absurd (show strOfOpt t1 = strOfOpt t by rw [h]) hkey
        · exact h
      have hbase1ne : (if cfg.groupByType then mapGet tfi (strOfOpt t1) else cfg.parentFolderId)
          ≠ B := hneq t1 (List.mem_cons_self _ _) hkey
      obtain ⟨e1, he1, hp1⟩ := ensureLettersRow_ext
        (if cfg.groupByType then mapGet tfi (strOfOpt t1) else cfg.parentFolderId)
        (strOfOpt t1) cfg.groupByType letters w m
      have hpar1 : ∀ g ∈ e1, g.parent ≠ B := by
        intro g hg
        rw [(hp1 g hg).1]
        exact hbase1ne
      have IH := ensureLettersGo_filter_count cfg tfi letters hletters B ts
        (ensureLettersRow
          (if cfg.groupByType then mapGet tfi (strOfOpt t1) else cfg.parentFolderId)
          (strOfOpt t1) cfg.groupByType w letters m).1
        (ensureLettersRow
          (if cfg.groupByType then mapGet tfi (strOfOpt t1) else cfg.parentFolderId)
          (strOfOpt t1) cfg.groupByType w letters m).2
        hnd' t ht' hB (fun t2 ht2 hk2 => hneq t2 (List.mem_cons_of_mem _ ht2) hk2)
      have hfw : ((ensureLettersRow
          (if cfg.groupByType then mapGet tfi (strOfOpt t1) else cfg.parentFolderId)
          (strOfOpt t1) cfg.groupByType w letters m).1.folders.filter
            (fun f => f.parent == B)).length =
          (w.folders.filter (fun f => f.parent == B)).length := by
        rw [he1]
        exact filter_parent_append _ _ _ hpar1
      have hpw : letters.filter (fun l => (findChildFolder (ensureLettersRow
          (if cfg.groupByType then mapGet tfi (strOfOpt t1) else cfg.parentFolderId)
          (strOfOpt t1) cfg.groupByType w letters m).1.folders [l] B).isSome) =
          letters.filter (fun l => (findChildFolder w.folders [l] B).isSome) := by
        rw [he1]
        exact preexist_append _ _ _ _ hpar1
      rw [hfw, hpw] at IH
      exact IH

theorem parent_ne_typeFolderId (w : World) (cfg : Config) (rank : Str → Nat)
    (hwf : WorldWF w rank) (hvp : ValidParent w cfg)
    (ts : List (Option Str)) (ft : FolderRec)
    (hmem : ft ∈ (ensureTypesGo cfg.parentFolderId w ts []).1.folders)
    (hpar : ft.parent = cfg.parentFolderId) :
    cfg.parentFolderId ≠ some ft.id := by
  obtain ⟨extT, hfoldT, hpT⟩ := ensureTypesGo_ext cfg.parentFolderId ts w []
  rw [hfoldT] at hmem
  rcases hvp with hnone | ⟨g, hgmem, hgid⟩
  · rw [hnone]
    simp
  · rw [← hgid]
    intro hEq
    have hgid2 : g.id = ft.id := Option.some_inj.mp hEq
    rcases List.mem_append.mp hmem with hmw | hmext
    · have hpar2 : ft.parent = some ft.id := by
        rw [hpar, ← hgid, hgid2]
      have hlt := hwf.2.2.2.2.2.2 ft hmw ft hmw hpar2
      omega
    · obtain ⟨hparext, n, hn, hid⟩ := hpT ft hmext
      exact hwf.2.2.2.1 g hgmem n hn (by rw [hgid2, hid])

/-- C7 amended: with createAllLetters on and a non-empty scope, the ensure
pass walks all 26 letters for every active partition, grouped type
partitions included, and finds-or-creates one folder per letter under the
partition's base; it creates folders only for letters with no pre-existing
match, so the folder count under each partition's base grows by exactly 26
minus the number of letters that already had a folder there. -/
theorem letter_creation_amended (w : World) (cfg : Config) (rank : Str → Nat)
    (hwf : WorldWF w rank) (hvp : ValidParent w cfg)
    (hca : cfg.createAllLetters = true)
    (hne : (scopeActors w cfg).isEmpty = false) :
    ∀ t ∈ typePartitions cfg (scopeActors w cfg),
      (((runEnsure w cfg).1.folders.filter (fun f => f.parent ==
          (if cfg.groupByType then mapGet (runEnsure w cfg).2.1 (strOfOpt t)
           else cfg.parentFolderId))).length +
        (azLetters.filter (fun l => (findChildFolder w.folders [l]
          (if cfg.groupByType then mapGet (runEnsure w cfg).2.1 (strOfOpt t)
           else cfg.parentFolderId)).isSome)).length =
      (w.folders.filter (fun f => f.parent ==
          (if cfg.groupByType then mapGet (runEnsure w cfg).2.1 (strOfOpt t)
           else cfg.parentFolderId))).length + 26) := by
  intro t ht
  have hlo : lettersOf cfg (scopeActors w cfg) = azLetters := by
    unfold lettersOf
    rw [if_pos hca]
  by_cases hg : cfg.groupByType = true
  · have htf : ensureTypeFolders w cfg (typePartitions cfg (scopeActors w cfg)) =
        ensureTypesGo cfg.parentFolderId w (typePartitions cfg (scopeActors w cfg)) [] := by
      unfold ensureTypeFolders
      rw [if_pos hg]
    obtain ⟨spec, _⟩ := ensureTypesGo_spec cfg.parentFolderId
      (typePartitions cfg (scopeActors w cfg)) w []
      (nodup_typePartitions_keys cfg (scopeActors w cfg))
    obtain ⟨ft, hft, hmt⟩ := spec t ht
    obtain ⟨_, hftname, hftpar⟩ := findChildFolder_props _ _ _ _ hft
    have hmemft : ft ∈ (ensureTypesGo cfg.parentFolderId w
        (typePartitions cfg (scopeActors w cfg)) []).1.folders :=
      findChildFolder_mem _ _ _ _ hft
    have hidsT : IdsOK (ensureTypesGo cfg.parentFolderId w
        (typePartitions cfg (scopeActors w cfg)) []).1 :=
      ensureTypesGo_idsOK cfg.parentFolderId _ w [] ⟨hwf.2.1, hwf.2.2.2.1⟩
    have hBne : cfg.parentFolderId ≠ some ft.id :=
      parent_ne_typeFolderId w cfg rank hwf hvp _ ft hmemft hftpar
    have hre21 : (runEnsure w cfg).2.1 = (ensureTypesGo cfg.parentFolderId w
        (typePartitions cfg (scopeActors w cfg)) []).2 := by
      show (ensureTypeFolders w cfg (typePartitions cfg (scopeActors w cfg))).2 = _
      rw [htf]
    have hbase_goal : (if cfg.groupByType then mapGet (runEnsure w cfg).2.1 (strOfOpt t)
        else cfg.parentFolderId) = some ft.id := by
      rw [if_pos hg, hre21, hmt]
    rw [hbase_goal]
    have hre1 : (runEnsure w cfg).1 =
        (ensureLettersGo cfg
          (ensureTypesGo cfg.parentFolderId w (typePartitions cfg (scopeActors w cfg)) []).2
          azLetters
          (ensureTypesGo cfg.parentFolderId w (typePartitions cfg (scopeActors w cfg)) []).1
          (typePartitions cfg (scopeActors w cfg)) []).1 := by
      rw [runEnsure_eq]
      show (ensureLettersGo cfg
        (ensureTypeFolders w cfg (typePartitions cfg (scopeActors w cfg))).2
        (lettersOf cfg (scopeActors w cfg))
        (ensureTypeFolders w cfg (typePartitions cfg (scopeActors w cfg))).1
        (typePartitions cfg (scopeActors w cfg)) []).1 = _
      rw [htf, hlo]
    rw [hre1]
    have hneq : ∀ t2 ∈ typePartitions cfg (scopeActors w cfg), strOfOpt t2 ≠ strOfOpt t →
        (if cfg.groupByType then mapGet (ensureTypesGo cfg.parentFolderId w
          (typePartitions cfg (scopeActors w cfg)) []).2 (strOfOpt t2)
         else cfg.parentFolderId) ≠ some ft.id := by
      intro t2 ht2 hk2
      rw [if_pos hg]
      obtain ⟨ft2, hft2, hmt2⟩ := spec t2 ht2
      obtain ⟨_, hft2name, _⟩ := findChildFolder_props _ _ _ _ hft2
      rw [hmt2]
      intro hEq
      have hid2 : ft2.id = ft.id := Option.some_inj.mp hEq
      have hff : ft2 = ft :=
        folderId_inj hidsT.1 (findChildFolder_mem _ _ _ _ hft2) hmemft hid2
      apply hk2
      rw [← hft2name, ← hftname, hff]
    obtain ⟨extT, hfoldT, hpT⟩ := ensureTypesGo_ext cfg.parentFolderId
      (typePartitions cfg (scopeActors w cfg)) w []
    have hparT : ∀ g ∈ extT, g.parent ≠ some ft.id := by
      intro g hg2
      rw [(hpT g hg2).1]
      exact hBne
    have hgo := ensureLettersGo_filter_count cfg
      (ensureTypesGo cfg.parentFolderId w (typePartitions cfg (scopeActors w cfg)) []).2
      azLetters (by decide) (some ft.id)
      (typePartitions cfg (scopeActors w cfg))
      (ensureTypesGo cfg.parentFolderId w (typePartitions cfg (scopeActors w cfg)) []).1
      [] (nodup_typePartitions_keys cfg (scopeActors w cfg)) t ht
      (by rw [if_pos hg, hmt]) hneq
    have hfT : ((ensureTypesGo cfg.parentFolderId w (typePartitions cfg (scopeActors w cfg))
        []).1.folders.filter (fun f => f.parent == some ft.id)).length =
        (w.folders.filter (fun f => f.parent == some ft.id)).length := by
      rw [hfoldT]
      exact filter_parent_append _ _ _ hparT
    have hpT2 : azLetters.filter (fun l => (findChildFolder (ensureTypesGo cfg.parentFolderId w
        (typePartitions cfg (scopeActors w cfg)) []).1.folders [l] (some ft.id)).isSome) =
        azLetters.filter (fun l => (findChildFolder w.folders [l] (some ft.id)).isSome) := by
      rw [hfoldT]
      exact preexist_append _ _ _ _ hparT
    rw [hfT, hpT2] at hgo
    rw [show azLetters.length = 26 by decide] at hgo
    exact hgo
  · have hgf : cfg.groupByType = false := Bool.eq_false_iff.mpr hg
    rw [if_neg hg]
    have hre1 : (runEnsure w cfg).1 =
        (ensureLettersRow cfg.parentFolderId (strOfOpt none) cfg.groupByType w
          azLetters []).1 := by
      rw [runEnsure_nogroup_eq w cfg hgf]
      show (ensureLettersRow cfg.parentFolderId (strOfOpt none) cfg.groupByType w
        (lettersOf cfg (scopeActors w cfg)) []).1 = _
      rw [hlo]
    rw [hre1]
    have hrow := ensureLettersRow_filter_count cfg.parentFolderId (strOfOpt none)
      cfg.groupByType azLetters w [] (by decide)
    rw [show azLetters.length = 26 by decide] at hrow
    exact hrow

theorem ne_genId_of_mem_ne {s : Str} {c : Char} (hc : c ∈ s) (hat : c ≠ '@') (n : Nat) :
    s ≠ genId n := by
  intro h
  rw [h] at hc
  exact hat (List.eq_of_mem_replicate hc)

theorem letter_creation_amended_witness :
    (WorldWF exWorldC7 (fun _ => 0) ∧ ValidParent exWorldC7 exCfgC7 ∧
     exCfgC7.createAllLetters = true ∧ (scopeActors exWorldC7 exCfgC7).isEmpty = false) ∧
    (∀ t ∈ typePartitions exCfgC7 (scopeActors exWorldC7 exCfgC7),
      (((runEnsure exWorldC7 exCfgC7).1.folders.filter (fun f => f.parent ==
          (if exCfgC7.groupByType then mapGet (runEnsure exWorldC7 exCfgC7).2.1 (strOfOpt t)
           else exCfgC7.parentFolderId))).length +
        (azLetters.filter (fun l => (findChildFolder exWorldC7.folders [l]
          (if exCfgC7.groupByType then mapGet (runEnsure exWorldC7 exCfgC7).2.1 (strOfOpt t)
           else exCfgC7.parentFolderId)).isSome)).length =
      (exWorldC7.folders.filter (fun f => f.parent ==
          (if exCfgC7.groupByType then mapGet (runEnsure exWorldC7 exCfgC7).2.1 (strOfOpt t)
           else exCfgC7.parentFolderId))).length + 26)) := by
  have hwf : WorldWF exWorldC7 (fun _ => 0) := by
    refine ⟨by decide, by decide, by decide, ?_, ?_, ?_, ?_⟩
    · intro f hf n _
      have hf2 : f = exFolderC7 := by simpa [exWorldC7] using hf
      subst hf2
      exact ne_genId_of_mem_ne (c := 'f') (by decide) (by decide) n
    · intro f hf pid hp
      have hf2 : f = exFolderC7 := by simpa [exWorldC7] using hf
      subst hf2
      exact absurd hp (by simp [exFolderC7])
    · intro a ha fid hfid
      have ha2 : a = exActorC7 := by simpa [exWorldC7] using ha
      subst ha2
      exact absurd hfid (by simp [exActorC7])
    · intro f hf p hp hpar
      have hf2 : f = exFolderC7 := by simpa [exWorldC7] using hf
      subst hf2
      exact absurd hpar (by simp [exFolderC7])
  have hvp : ValidParent exWorldC7 exCfgC7 := Or.inl rfl
  exact ⟨⟨hwf, hvp, rfl, by decide⟩,
    letter_creation_amended exWorldC7 exCfgC7 (fun _ => 0) hwf hvp rfl (by decide)⟩
